import Mathlib

/-!
# SlimXml (`Source/SlimXml/SlimXml.h`): the inline part of the document model

The header defines `XmlBase` (a name/value pair of zero-terminated `Char`
buffers), `XmlAttribute`, `XmlNode` and the inline accessors, typed getters
and setters.  This development embeds those inline definitions and proves
properties of them.

Conventions of the embedding.

* The narrow build is modelled (`typedef char Char`).  A `Char*` is an
  `Option (List Char)`: `none` is the NULL pointer, `some s` points at the
  characters `s` followed by the terminating zero.  A list that itself
  contains the zero character is read, as C does, up to the first zero.
* The platform is the `__GNUC__` configuration of the header on a 64-bit
  little-endian target with the GNU C library: `int` and `unsigned int` are
  32 bits wide, `long` and `unsigned long` 64 bits.  Numbers are `Int`/`Nat`
  with explicit saturation and reduction modulo `2 ^ 32` where the library
  saturates and a conversion narrows.
* A member function that dereferences a NULL `m_value` has no defined result
  and returns `none`; so does a call that reads a buffer it has released, and
  a call that binds to a function without definition.
* A `const Char*` argument of a setter is a `CharPtr`: it points at a text
  outside the object or into one of the object's own two buffers.
* `std::list<T*>` of owned objects is a `List T`; a `const_iterator` is a
  position in it (`begin` is `0`, `end` is the length).
* The C library calls used by the header (`strlen`, `strcpy`, `strcmp`,
  `atoi`, `sscanf`, `snprintf`) are modelled after ISO C (7.21.6, 7.22.1,
  7.24); where ISO C leaves the result undefined (a number that does not fit)
  the model follows the GNU C library.
* Member functions that the header declares without a body (`findAttribute`,
  `addAttribute()`, the `XmlNode` constructor, `findLabel`, `parseLabel`) are
  modelled from the specification document; the doc comment of each such
  definition starts with "Modelled from the spec".
-/

namespace slim

/-! ## C library -/

/-- The terminating zero character. -/
def NUL : Char := Char.ofNat 0

/-- Contents of the C string starting at a buffer: the characters before the first zero. -/
def cstr (s : List Char) : List Char := s.takeWhile (fun c => c != NUL)

/-- `Strlen` (`strlen`): number of characters before the terminating zero. -/
def Strlen (s : List Char) : Nat := (cstr s).length

/-- `Strcpy` (`strcpy`): the destination receives the characters of the source up to its
terminating zero. -/
def Strcpy (src : List Char) : List Char := cstr src

/-- `Strcmp` (`strcmp`): compares character by character up to the first difference or the
terminating zero; the end of a list is its terminating zero. -/
def Strcmp : List Char → List Char → Int
  | [], [] => 0
  | [], b :: _ => - (b.toNat : Int)
  | a :: _, [] => (a.toNat : Int)
  | a :: as, b :: bs =>
    if a ≠ b then (a.toNat : Int) - (b.toNat : Int)
    else if a = NUL then 0
    else Strcmp as bs

/-- `isspace` in the "C" locale: space, `\t`, `\n`, `\v`, `\f`, `\r`. -/
def isspace (c : Char) : Bool := c.toNat == 32 || (9 ≤ c.toNat && c.toNat ≤ 13)

/-- `isdigit`: `'0'`..`'9'`. -/
def isdigit (c : Char) : Bool := 48 ≤ c.toNat && c.toNat ≤ 57

/-- `isxdigit`: a decimal digit, `'a'`..`'f'` or `'A'`..`'F'`. -/
def isxdigit (c : Char) : Bool :=
  isdigit c || (97 ≤ c.toNat && c.toNat ≤ 102) || (65 ≤ c.toNat && c.toNat ≤ 70)

/-- Value of a hexadecimal digit character (decimal digits included). -/
def xdigitVal (c : Char) : Nat :=
  if isdigit c then c.toNat - 48
  else if 97 ≤ c.toNat then c.toNat - 87
  else c.toNat - 55

/-- Skips leading white space, as `atoi` and the `scanf` conversions do. -/
def skipSpace : List Char → List Char
  | [] => []
  | c :: cs => if isspace c then skipSpace cs else c :: cs

/-- Reads an optional sign; returns whether it was `-` and the rest. -/
def takeSign : List Char → Bool × List Char
  | [] => (false, [])
  | c :: cs =>
    if c = '-' then (true, cs)
    else if c = '+' then (false, cs)
    else (false, c :: cs)

/-- Accumulates the longest run of decimal digits at the front of the text. -/
def scanDec : Nat → List Char → Nat
  | acc, [] => acc
  | acc, c :: cs => if isdigit c then scanDec (10 * acc + (c.toNat - 48)) cs else acc

/-- Accumulates the longest run of hexadecimal digits at the front of the text. -/
def scanHexDigits : Nat → List Char → Nat
  | acc, [] => acc
  | acc, c :: cs => if isxdigit c then scanHexDigits (16 * acc + xdigitVal c) cs else acc

/-- Narrowing of a mathematical integer to a 32-bit `int` (two's complement). -/
def toInt32 (z : Int) : Int := (z + 2 ^ 31) % 2 ^ 32 - 2 ^ 31

/-- Saturation of `strtol`: a number below `LONG_MIN` becomes `LONG_MIN`, a number above
`LONG_MAX` becomes `LONG_MAX` (`long` has 64 bits). -/
def clampLong (z : Int) : Int :=
  if z < -2 ^ 63 then -2 ^ 63
  else if 2 ^ 63 - 1 < z then 2 ^ 63 - 1
  else z

/-- Result of `strtoul` (`unsigned long` has 64 bits) for the magnitude read after an
optional `-`: `ULONG_MAX` when the magnitude exceeds it, otherwise the magnitude, negated
modulo `2 ^ 64` after a `-`. -/
def strtoulValue (negative : Bool) (magnitude : Nat) : Nat :=
  if 2 ^ 64 ≤ magnitude then 2 ^ 64 - 1
  else if negative then (2 ^ 64 - magnitude) % 2 ^ 64
  else magnitude

/-- `StrToI` (`atoi`, which is `(int) strtol(nptr, NULL, 10)`): white space, an optional sign,
then the longest run of decimal digits; no digits gives `0`.  ISO C leaves a result that does
not fit undefined; the library saturates at the range of `long` and the conversion to `int`
keeps the low 32 bits. -/
def StrToI (s : List Char) : Int :=
  let r := takeSign (skipSpace s)
  let n : Int := (scanDec 0 r.2 : Nat)
  toInt32 (clampLong (if r.1 then -n else n))

/-- The two hexadecimal conversion specifiers used by the header. -/
inductive HexSpec where
  | X
  | x
deriving DecidableEq, Repr

/-- Removes an optional `0x`/`0X` prefix in front of hexadecimal digits. -/
def dropHexPrefix : List Char → List Char
  | c0 :: c1 :: cs => if c0 = '0' ∧ (c1 = 'x' ∨ c1 = 'X') then cs else c0 :: c1 :: cs
  | cs => cs

/-- The conversion of `sscanf` for `%X` and `%x` (ISO C 7.21.6.2: `X` behaves the same as
`x`; the input has the form expected by `strtoul` with base 16): white space, an optional
sign, an optional `0x`/`0X`, then hexadecimal digits of either case.  `none` is an input or
matching failure: no hexadecimal digit follows the white space and sign.  As in the GNU C
library, a `0x` that no digit follows converts as the `0` in front of the `x`.  The number is
the `strtoul` result, which saturates at `ULONG_MAX`; it is stored through an
`unsigned int*`, which keeps the low 32 bits. -/
def scanHex (_spec : HexSpec) (s : List Char) : Option Nat :=
  let r := takeSign (skipSpace s)
  match r.2 with
  | [] => none
  | c :: _ =>
    if isxdigit c then some (strtoulValue r.1 (scanHexDigits 0 (dropHexPrefix r.2)) % 2 ^ 32)
    else none

/-- `Sscanf(text, "%X" or "%x", &value)`: on a successful conversion the result is stored in
`value`, otherwise `value` keeps what it held. -/
def Sscanf (text : List Char) (spec : HexSpec) (value : Nat) : Nat :=
  match scanHex spec text with
  | some v => v
  | none => value

/-- Character of a digit below 16, with upper-case letters (as `%X` and `%d` print). -/
def digitChar (d : Nat) : Char :=
  if d < 10 then Char.ofNat (48 + d) else Char.ofNat (55 + d)

/-- Digits of `n` in base `base`, most significant first, in front of `acc`. -/
def fmtDigits (base : Nat) : Nat → Nat → List Char → List Char
  | 0, _, acc => acc
  | fuel + 1, n, acc =>
    if n / base = 0 then digitChar (n % base) :: acc
    else fmtDigits base fuel (n / base) (digitChar (n % base) :: acc)

/-- Text of an unsigned number in the given base, as `printf` writes it: no prefix, no
leading zeros, `0` as a single digit. -/
def fmtUnsigned (base n : Nat) : List Char := fmtDigits base (n + 1) n []

/-- Text that `%d` produces for an `int`. -/
def fmt_d (n : Int) : List Char :=
  if n < 0 then '-' :: fmtUnsigned 10 n.natAbs else fmtUnsigned 10 n.natAbs

/-- Text that `%X` produces: the argument is taken as a 32-bit unsigned value. -/
def fmt_X (v : Nat) : List Char := fmtUnsigned 16 (v % 2 ^ 32)

/-- `Sprintf(sz, size, ...)` (`snprintf`): at most `size - 1` characters of the formatted
text are stored, followed by the terminating zero. -/
def Sprintf (size : Nat) (formatted : List Char) : List Char := formatted.take (size - 1)

/-! ## XmlBase -/

/-- `class XmlBase`: the data members. -/
structure XmlBase where
  m_name : Option (List Char)
  m_value : Option (List Char)
  m_nameAllocated : Bool
  m_valueAllocated : Bool
deriving DecidableEq, Repr

/-- `XmlBase::XmlBase()`: both pointers refer to the literal `""`, nothing is allocated. -/
def XmlBase.ctor : XmlBase :=
  { m_name := some [], m_value := some [], m_nameAllocated := false, m_valueAllocated := false }

/-- `XmlBase::getName`. -/
def XmlBase.getName (self : XmlBase) : Option (List Char) := self.m_name

/-- `XmlBase::setName(const Char* name)` for a `name` that the call can read after it has
released the old buffer, given by the text `name` points at: the old buffer is released and a
copy of the text is stored.  The call for an arbitrary non-null pointer, also one into the
object's own buffers, is `XmlBase.setName_ptr`. -/
def XmlBase.setName (self : XmlBase) (name : List Char) : XmlBase :=
  { self with m_name := some (Strcpy name), m_nameAllocated := true }

/-- `XmlBase::getValue<const Char*>`. -/
def XmlBase.getValue_cstr (self : XmlBase) : Option (List Char) := self.m_value

/-- `XmlBase::getValue<bool>`. -/
def XmlBase.getValue_bool (self : XmlBase) : Option Bool :=
  self.m_value.map fun v =>
    (Strcmp v "true".toList == 0 || Strcmp v "TRUE".toList == 0)

/-- `XmlBase::getValue<int>`. -/
def XmlBase.getValue_int (self : XmlBase) : Option Int :=
  self.m_value.map StrToI

/-- `XmlBase::setValue(const Char* value)` for a `value` that the call can read after it has
released the old buffer, given by the text `value` points at.  The call for an arbitrary
non-null pointer, also one into the object's own buffers, is `XmlBase.setValue_ptr`. -/
def XmlBase.setValue (self : XmlBase) (value : List Char) : XmlBase :=
  { self with m_value := some (Strcpy value), m_valueAllocated := true }

/-- `XmlBase::setValue<String>`: the argument is a `std::string`, of which `c_str()` is
copied with `Strcpy`. -/
def XmlBase.setValue_String (self : XmlBase) (value : List Char) : XmlBase :=
  { self with m_value := some (Strcpy value), m_valueAllocated := true }

/-- Where a non-null `const Char*` argument of a member function points: at a text outside
the object's buffers (a literal, a local array, the buffer of another object), or into the
buffer of the object's own `m_name` or `m_value`, at an offset from its start
(`getName()` is `intoName 0`, `getValue<const Char*>()` is `intoValue 0`). -/
inductive CharPtr where
  | outside (text : List Char)
  | intoName (offset : Nat)
  | intoValue (offset : Nat)
deriving DecidableEq, Repr

/-- The text at an offset in a buffer; there is none at a NULL buffer or behind the
terminating zero. -/
def textAt (buffer : Option (List Char)) (offset : Nat) : Option (List Char) :=
  match buffer with
  | none => none
  | some b => if offset ≤ (cstr b).length then some ((cstr b).drop offset) else none

/-- What `Strlen` and `Strcpy` read at a pointer argument once the call has released
(`delete[]`) the buffers flagged as released: reading a released buffer has no defined
result. -/
def XmlBase.readArg (self : XmlBase) (nameReleased valueReleased : Bool) :
    CharPtr → Option (List Char)
  | CharPtr.outside text => some text
  | CharPtr.intoName offset => if nameReleased then none else textAt self.m_name offset
  | CharPtr.intoValue offset => if valueReleased then none else textAt self.m_value offset

/-- `XmlBase::setName(const Char* name)` for any non-null pointer: `m_name` is released when
`m_nameAllocated && m_name != NULL`, and only then does `Strlen(name)` read the argument. -/
def XmlBase.setName_ptr (self : XmlBase) (name : CharPtr) : Option XmlBase :=
  let released := self.m_nameAllocated && self.m_name.isSome
  match self.readArg released false name with
  | none => none
  | some text => some (self.setName text)

/-- `XmlBase::setValue(const Char* value)` for any non-null pointer: `m_value` is released
when `m_valueAllocated && m_value != NULL`, and only then does `Strlen(value)` read the
argument. -/
def XmlBase.setValue_ptr (self : XmlBase) (value : CharPtr) : Option XmlBase :=
  let released := self.m_valueAllocated && self.m_value.isSome
  match self.readArg false released value with
  | none => none
  | some text => some (self.setValue text)

/-- The primary member template `template<typename T> void setValue(const T& value)` (class
body of `XmlBase`): it is declared and has no definition; the header defines only the
specialisations for `String`, `bool`, `int`, `float` and `double`.  A call bound to any other
instance has no function to run and no result. -/
def XmlBase.setValue_primary {T : Type} (_self : XmlBase) (_value : T) : Option XmlBase :=
  none

/-- `XmlBase::setValue<bool>`: the argument of `setValue` is of type `const Char*`, so the
non-template overload is called, with a literal. -/
def XmlBase.setValue_bool (self : XmlBase) (value : Bool) : XmlBase :=
  self.setValue (if value then "true".toList else "false".toList)

/-- `XmlBase::setValue<int>`: formats into `Char sz[128]` and calls `setValue(sz)`.  The
argument has type `Char[128]`: the template `setValue(const T&)` with `T = Char[128]` takes it
by an identity conversion, `setValue(const Char*)` needs a qualification conversion, so
overload resolution binds the call to the primary template. -/
def XmlBase.setValue_int (self : XmlBase) (value : Int) : Option XmlBase :=
  let sz := Sprintf 128 (fmt_d value)
  self.setValue_primary sz

/-- `XmlBase::getHex`.  `value` is an `unsigned long` initialised to 0 of which `Sscanf`
writes the low 32 bits. -/
def XmlBase.getHex (self : XmlBase) : Option Nat :=
  self.m_value.map fun m_value =>
    let value := 0
    let value := Sscanf m_value HexSpec.X value
    if value = 0 then Sscanf m_value HexSpec.x value else value

/-- `XmlBase::setHex`: formats into `Char sz[128]` and calls `setValue(sz)`, which binds to
the primary template as in `setValue<int>`. -/
def XmlBase.setHex (self : XmlBase) (value : Nat) : Option XmlBase :=
  let sz := Sprintf 128 (fmt_X value)
  self.setValue_primary sz

/-! ## XmlAttribute and XmlNode -/

/-- `class XmlAttribute : public XmlBase {}`. -/
structure XmlAttribute extends XmlBase
deriving DecidableEq, Repr

/-- `enum NodeType`. -/
inductive NodeType where
  | DOCUMENT
  | ELEMENT
  | COMMENT
  | DECLARATION
deriving DecidableEq, Repr

/-- `class XmlNode : public XmlBase`: the base part, the kind, the owned attributes and the
owned children, both in list order.  The parent back-reference `m_parent` is the position of
the node in the tree and is not stored. -/
inductive XmlNode where
  | mk (base : XmlBase) (m_type : NodeType) (m_attributes : List XmlAttribute)
      (m_children : List XmlNode)

/-- The `XmlBase` part of a node. -/
def XmlNode.base : XmlNode → XmlBase
  | .mk b _ _ _ => b

/-- Member `m_type`. -/
def XmlNode.m_type : XmlNode → NodeType
  | .mk _ t _ _ => t

/-- Member `m_attributes`. -/
def XmlNode.m_attributes : XmlNode → List XmlAttribute
  | .mk _ _ a _ => a

/-- Member `m_children`. -/
def XmlNode.m_children : XmlNode → List XmlNode
  | .mk _ _ _ c => c

/-- Modelled from the spec: the constructor `XmlNode::XmlNode(NodeType, XmlNode*)` is declared
in the header and defined elsewhere.  The base part is built by `XmlBase::XmlBase()` and the
two lists are default-constructed; spec section 8.6 has a fresh node with empty name, empty
value and no child. -/
def XmlNode.ctor (type : NodeType) : XmlNode :=
  .mk XmlBase.ctor type [] []

/-- `XmlNode::getType`. -/
def XmlNode.getType (self : XmlNode) : NodeType := self.m_type

/-- `XmlNode::hasChild`. -/
def XmlNode.hasChild (self : XmlNode) : Bool := !self.m_children.isEmpty

/-- `XmlNode::isEmpty`: `m_value[0] == 0` holds when the text at `m_value` has no character
before its terminating zero. -/
def XmlNode.isEmpty (self : XmlNode) : Bool :=
  !self.hasChild &&
    (match self.base.m_value with
     | none => true
     | some v => (v.headD NUL) == NUL)

/-- `XmlBase::setValue(const Char*)` called on a node (`XmlNode` derives from `XmlBase`). -/
def XmlNode.setValue (self : XmlNode) (value : List Char) : XmlNode :=
  .mk (self.base.setValue value) self.m_type self.m_attributes self.m_children

/-- Modelled from the spec: `XmlNode::addAttribute()` without arguments is declared in the
header and defined elsewhere.  Spec section 3: attributes are created only by the add
operations of their node and are kept in insertion order; the call creates a
default-constructed attribute, appends it and returns it. -/
def XmlNode.addAttribute0 (self : XmlNode) : XmlNode × XmlAttribute :=
  let attr : XmlAttribute := { toXmlBase := XmlBase.ctor }
  (.mk self.base self.m_type (self.m_attributes ++ [attr]) self.m_children, attr)

/-- Writes through the pointer to the attribute that was appended last. -/
def XmlNode.storeLastAttribute (self : XmlNode) (attr : XmlAttribute) : XmlNode :=
  .mk self.base self.m_type (self.m_attributes.dropLast ++ [attr]) self.m_children

/-- `XmlNode::addAttribute(const Char* name, const Char* value)`: returns the node after the
call and the attribute the returned pointer refers to. -/
def XmlNode.addAttribute (self : XmlNode) (name value : Option (List Char)) :
    XmlNode × XmlAttribute :=
  let attr : XmlAttribute := { toXmlBase := XmlBase.ctor }
  let attr : XmlAttribute :=
    match name with
    | some name => { toXmlBase := attr.toXmlBase.setName name }
    | none => attr
  let attr : XmlAttribute :=
    match value with
    | some value => { toXmlBase := attr.toXmlBase.setValue value }
    | none => attr
  (.mk self.base self.m_type (self.m_attributes ++ [attr]) self.m_children, attr)

/-- `XmlNode::addAttribute<T>(const Char* name, const T& value)`; `setValue_T` is the
specialisation `XmlBase::setValue<T>`. -/
def XmlNode.addAttribute_T {T : Type} (setValue_T : XmlBase → T → XmlBase) (self : XmlNode)
    (name : List Char) (value : T) : XmlNode × XmlAttribute :=
  let r := self.addAttribute0
  let attr : XmlAttribute := { toXmlBase := r.2.toXmlBase.setName name }
  let attr : XmlAttribute := { toXmlBase := setValue_T attr.toXmlBase value }
  (r.1.storeLastAttribute attr, attr)

/-- Modelled from the spec: `XmlNode::findAttribute` is declared in the header and defined
elsewhere.  Spec section 3: duplicate names are permitted and the first match wins on
lookup; section 7: a missing attribute is an absence result (`none` is NULL).  Names are
compared as texts. -/
def XmlNode.findAttribute (self : XmlNode) (name : List Char) : Option XmlAttribute :=
  self.m_attributes.find? fun a =>
    match a.m_name with
    | some n => Strcmp n name == 0
    | none => false

/-- `XmlNode::readAttribute<T>(const Char* name, T defaultValue)`; `getValue_T` is the
specialisation `XmlBase::getValue<T>`, whose result is `none` when it is undefined. -/
def XmlNode.readAttribute {T : Type} (getValue_T : XmlBase → Option T) (self : XmlNode)
    (name : List Char) (defaultValue : T) : Option T :=
  match self.findAttribute name with
  | none => some defaultValue
  | some attr => getValue_T attr.toXmlBase

/-- `NodeIterator`: a position in `m_children`; `m_children.end()` is the length. -/
abbrev NodeIterator := Nat

/-- `XmlNode::getFirstChild(NodeIterator& iter)`: the iterator after the call and the
returned pointer. -/
def XmlNode.getFirstChild (self : XmlNode) (_iter : NodeIterator) :
    NodeIterator × Option XmlNode :=
  let iter := 0
  if iter ≠ self.m_children.length then (iter, self.m_children[iter]?)
  else (iter, none)

/-- `XmlNode::getNextChild(NodeIterator& iter)`: the iterator after the call and the returned
pointer. -/
def XmlNode.getNextChild (self : XmlNode) (iter : NodeIterator) :
    NodeIterator × Option XmlNode :=
  if iter ≠ self.m_children.length then
    let iter := iter + 1
    if iter ≠ self.m_children.length then (iter, self.m_children[iter]?)
    else (iter, none)
  else (iter, none)

/-- `XmlNode::getChild(NodeIterator iter)`. -/
def XmlNode.getChild (self : XmlNode) (iter : NodeIterator) : Option XmlNode :=
  if iter ≠ self.m_children.length then self.m_children[iter]? else none

/-- `XmlNode::getChildCount()`. -/
def XmlNode.getChildCount (self : XmlNode) : Nat := self.m_children.length

/-- A caller that walks the children: `getFirstChild`, then `k` calls of `getNextChild` on
the same iterator.  The state is the node, the iterator and the pointer returned last. -/
def childWalk (node : XmlNode) : Nat → XmlNode × NodeIterator × Option XmlNode
  | 0 =>
    let r := node.getFirstChild 0
    (node, r.1, r.2)
  | k + 1 =>
    let st := childWalk node k
    let r := st.1.getNextChild st.2.1
    (st.1, r.1, r.2)

/-- One call of a setter of `XmlBase` with its (non-null) argument. -/
inductive SetterCall where
  | setName (name : CharPtr)
  | setValue (value : CharPtr)
  | setValue_String (value : List Char)
  | setValue_bool (value : Bool)
  | setValue_int (value : Int)
  | setHex (value : Nat)
deriving DecidableEq, Repr

/-- Performs one setter call on an object; `none` when the call has no defined result. -/
def SetterCall.apply (x : XmlBase) : SetterCall → Option XmlBase
  | SetterCall.setName name => x.setName_ptr name
  | SetterCall.setValue value => x.setValue_ptr value
  | SetterCall.setValue_String value => some (x.setValue_String value)
  | SetterCall.setValue_bool value => some (x.setValue_bool value)
  | SetterCall.setValue_int value => x.setValue_int value
  | SetterCall.setHex value => x.setHex value

/-- Performs a sequence of setter calls, first call first, as far as every call has a
defined result. -/
def runSetters : XmlBase → List SetterCall → Option XmlBase
  | x, [] => some x
  | x, c :: cs =>
    match c.apply x with
    | none => none
    | some y => runSetters y cs

/-- `XmlBase::getHex` with the `if (value == 0)` retry removed: the function returns the value
that the `%X` scan leaves in `value`, which was initialised to 0. -/
def XmlBase.getHex_noRetry (self : XmlBase) : Option Nat :=
  self.m_value.map fun m_value =>
    let value := 0
    Sscanf m_value HexSpec.X value

/-- Modelled from the spec: `XmlNode::readAttributeAsEnum(name, enumNames, enumCount,
defaultValue)` is declared in the header and defined elsewhere.  Spec section 4.5: the
attribute's text value is compared with the candidates `enumNames[0 .. enumCount)` in order,
by exact equality of texts (`Strcmp(...) == 0`); the index of the match is returned, or the
default when nothing matches; section 8.5: a missing attribute gives the default. -/
def XmlNode.readAttributeAsEnum (self : XmlNode) (name : List Char)
    (enumNames : List (List Char)) (enumCount : Nat) (defaultValue : Nat) : Option Nat :=
  match self.findAttribute name with
  | none => some defaultValue
  | some attr =>
    attr.getValue_cstr.map fun value =>
      match (enumNames.take enumCount).findIdx? (fun e => Strcmp e value == 0) with
      | some i => i
      | none => defaultValue

/-! ## Label scanner and label interpreter -/

/-- The double quote character. -/
def QUOT : Char := Char.ofNat 34

/-- The single quote character. -/
def APOS : Char := Char.ofNat 39

/-- Modelled from the spec: the states of the label scanner (section 4.3); the scanner is
`XmlDocument::findLabel`, declared in the header and defined elsewhere. -/
inductive ScanState where
  | Outside
  | InTag
  | InQuote (quoteChar : Char)
  | InComment
deriving DecidableEq, Repr

/-- Modelled from the spec: the state machine of section 4.3, behind `XmlDocument::findLabel`
(declared in the header, defined elsewhere).  `Outside` goes to `InTag` on `<`, or to
`InComment` when `<` is followed by `!--`; `InTag` goes to `InQuote` on a quote character,
which it records, and back on the matching quote; `InComment` ends only at `-->`; `InTag`
ends at an unquoted `>`.  `acc` holds the characters of the label read so far, last first.
The result is the label span, delimiters included, and the text after it; `none` is the
"no more labels" signal. -/
def scanLabel : ScanState → List Char → List Char → Option (List Char × List Char)
  | _, _, [] => none
  | ScanState.Outside, _, '<' :: '!' :: '-' :: '-' :: cs =>
    scanLabel ScanState.InComment ['-', '-', '!', '<'] cs
  | ScanState.Outside, _, c :: cs =>
    if c = '<' then scanLabel ScanState.InTag ['<'] cs
    else scanLabel ScanState.Outside [] cs
  | ScanState.InTag, acc, c :: cs =>
    if c = QUOT ∨ c = APOS then scanLabel (ScanState.InQuote c) (c :: acc) cs
    else if c = '>' then some ((c :: acc).reverse, cs)
    else scanLabel ScanState.InTag (c :: acc) cs
  | ScanState.InQuote q, acc, c :: cs =>
    if c = q then scanLabel ScanState.InTag (c :: acc) cs
    else scanLabel (ScanState.InQuote q) (c :: acc) cs
  | ScanState.InComment, acc, '-' :: '-' :: '>' :: cs =>
    some (('>' :: '-' :: '-' :: acc).reverse, cs)
  | ScanState.InComment, acc, c :: cs =>
    scanLabel ScanState.InComment (c :: acc) cs

/-- Modelled from the spec: `XmlDocument::findLabel` (declared in the header, defined
elsewhere), section 4.3: from the cursor, the span of the next label and the cursor after
it. -/
def findLabel (input : List Char) : Option (List Char × List Char) :=
  scanLabel ScanState.Outside [] input

/-- Modelled from the spec: replacement of the five character references of section 4.4
(`&lt;` `&gt;` `&amp;` `&quot;` `&apos;`) by their characters; any other text is passed
through unchanged. -/
def unescape : List Char → List Char
  | [] => []
  | '&' :: 'l' :: 't' :: ';' :: cs => '<' :: unescape cs
  | '&' :: 'g' :: 't' :: ';' :: cs => '>' :: unescape cs
  | '&' :: 'a' :: 'm' :: 'p' :: ';' :: cs => '&' :: unescape cs
  | '&' :: 'q' :: 'u' :: 'o' :: 't' :: ';' :: cs => QUOT :: unescape cs
  | '&' :: 'a' :: 'p' :: 'o' :: 's' :: ';' :: cs => APOS :: unescape cs
  | c :: cs => c :: unescape cs

/-- Characters that end a name inside a label: white space, `=`, `/` and `>`. -/
def endsName (c : Char) : Bool := isspace c || c == '=' || c == '/' || c == '>'

/-- Modelled from the spec: attribute parsing of section 4.4 (part of
`XmlDocument::parseLabel`, declared in the header and defined elsewhere): triples
`identifier = quote ... quote` separated by white space, up to the terminating `/` or `>`;
each triple is appended to the element with `addAttribute`, in source order, its value
unescaped.  The result also tells whether the label ended with `/`.  Text that is not such a
triple ends the scan. -/
def parseAttributes : Nat → XmlNode → List Char → XmlNode × Bool
  | 0, node, _ => (node, false)
  | fuel + 1, node, text =>
    match skipSpace text with
    | [] => (node, false)
    | c :: cs =>
      if c = '/' then (node, true)
      else if c = '>' then (node, false)
      else
        let name := (c :: cs).takeWhile (fun x => !endsName x)
        match skipSpace ((c :: cs).dropWhile (fun x => !endsName x)) with
        | e :: r =>
          if e = '=' then
            match skipSpace r with
            | q :: v =>
              if q = QUOT ∨ q = APOS then
                match v.dropWhile (fun x => x != q) with
                | _ :: rest =>
                  let value := unescape (v.takeWhile (fun x => x != q))
                  parseAttributes fuel (node.addAttribute (some name) (some value)).1 rest
                | [] => (node, false)
              else (node, false)
            | [] => (node, false)
          else (node, false)
        | [] => (node, false)

/-- `XmlBase::setName` called on a node (`XmlNode` derives from `XmlBase`). -/
def XmlNode.setName (self : XmlNode) (name : List Char) : XmlNode :=
  .mk (self.base.setName name) self.m_type self.m_attributes self.m_children

/-- Modelled from the spec: `XmlDocument::parseLabel(node, label, labelSize)` (declared in
the header, defined elsewhere) for an element label, section 4.4: the text after `<` up to
white space, `/` or `>` is the name of the element, the attributes follow; the result is the
element and whether the label is self-closing. -/
def parseLabel (node : XmlNode) (label : List Char) : XmlNode × Bool :=
  let body := label.drop 1
  let name := body.takeWhile (fun x => !endsName x)
  parseAttributes label.length (node.setName name) (body.dropWhile (fun x => !endsName x))

/-! ## Vocabulary of the specification -/

/-- Position of a digit character in the digit alphabet, letters of either case. -/
def digitValue (c : Char) : Nat := "0123456789abcdef".toList.indexOf c.toLower

/-- The number that a text of hexadecimal digits denotes in base 16. -/
def hexValue (s : List Char) : Nat := Nat.ofDigits 16 (s.reverse.map digitValue)

/-- The canonical base-10 text of an integer: a `-` exactly for a negative number, no `+`,
then a non-empty run of decimal digits without a leading zero (the number zero is `0`),
whose value in base 10 is the magnitude. -/
def IsCanonicalDecimal (t : List Char) (n : Int) : Prop :=
  ∃ ds : List Char, t = (if n < 0 then '-' :: ds else ds) ∧ ds ≠ [] ∧
    (∀ c ∈ ds, c ∈ "0123456789".toList) ∧
    (ds.head? = some '0' → ds = ['0']) ∧
    Nat.ofDigits 10 (ds.reverse.map digitValue) = n.natAbs

/-- The text left after optional leading white space and an optional sign. -/
def afterSpaceAndSign (s : List Char) : List Char :=
  let r := s.dropWhile isspace
  if r.head? = some '-' ∨ r.head? = some '+' then r.tail else r

/-- A text without numeric prefix: after optional leading white space and sign there is no
decimal digit. -/
def NoNumericPrefix (s : List Char) : Prop :=
  ∀ c ∈ (afterSpaceAndSign s).take 1, c ∉ "0123456789".toList

/-- A text without hexadecimal prefix: after optional leading white space and sign there is
no hexadecimal digit. -/
def NoHexPrefix (s : List Char) : Prop :=
  ∀ c ∈ (afterSpaceAndSign s).take 1, c ∉ "0123456789abcdefABCDEF".toList

/-- A zero-terminated text: the characters before the terminating zero, none of them zero. -/
def IsText (p : Option (List Char)) : Prop :=
  ∃ s : List Char, p = some s ∧ NUL ∉ s

/-- A setter call whose argument lies outside the object and which is bound to a function
that the header defines. -/
def SetterCall.isPlain : SetterCall → Bool
  | SetterCall.setName (CharPtr.outside _) => true
  | SetterCall.setValue (CharPtr.outside _) => true
  | SetterCall.setValue_String _ => true
  | SetterCall.setValue_bool _ => true
  | _ => false

/-- One piece of the text of a tag: a character that is neither a quote nor `>`, or a quoted
value, that is a quote character, any characters but that quote, and the same quote
again. -/
inductive TagPiece where
  | plain (c : Char)
  | quoted (q : Char) (v : List Char)
deriving DecidableEq, Repr

/-- The characters of a piece. -/
def TagPiece.text : TagPiece → List Char
  | TagPiece.plain c => [c]
  | TagPiece.quoted q v => q :: (v ++ [q])

/-- Well-formedness of a piece. -/
def TagPiece.wf : TagPiece → Prop
  | TagPiece.plain c => c ≠ QUOT ∧ c ≠ APOS ∧ c ≠ '>'
  | TagPiece.quoted q v => (q = QUOT ∨ q = APOS) ∧ q ∉ v

/-- The text of a sequence of pieces. -/
def tagText : List TagPiece → List Char
  | [] => []
  | p :: ps => p.text ++ tagText ps

/-- The upper-case base-16 text of a number: a non-empty run of the digits `0`..`9`,
`A`..`F`, without prefix and without a leading zero (the number zero is `0`), whose value in
base 16 is the number. -/
def IsUpperHexOf (t : List Char) (v : Nat) : Prop :=
  t ≠ [] ∧ (∀ c ∈ t, c ∈ "0123456789ABCDEF".toList) ∧
    (t.head? = some '0' → t = ['0']) ∧ hexValue t = v

/-! # Theorems -/

/-! ## Characters -/

theorem char_eq_of_toNat {c : Char} {n : Nat} (h : c.toNat = n) : c = Char.ofNat n := by
  rw [← h, Char.ofNat_toNat]

/-- A property of all 22 hexadecimal digit characters holds of every `isxdigit` character. -/
theorem isxdigit_cases (P : Char → Prop) (hP : ∀ c ∈ "0123456789abcdefABCDEF".toList, P c)
    (c : Char) (h : isxdigit c = true) : P c := by
  simp only [isxdigit, isdigit, Bool.or_eq_true, Bool.and_eq_true, decide_eq_true_eq] at h
  obtain ⟨n, hn⟩ : ∃ n, c.toNat = n := ⟨_, rfl⟩
  rw [hn] at h
  have hc := char_eq_of_toNat hn
  subst hc
  apply hP
  rcases h with (⟨h1, h2⟩ | ⟨h1, h2⟩) | ⟨h1, h2⟩ <;> interval_cases n <;> decide

theorem xdigitVal_eq (c : Char) (h : isxdigit c = true) : xdigitVal c = digitValue c := by
  revert c
  apply isxdigit_cases
  decide

theorem xdigitVal_lt (c : Char) (h : isxdigit c = true) : xdigitVal c < 16 := by
  revert c
  apply isxdigit_cases
  decide

theorem isxdigit_facts (c : Char) (h : isxdigit c = true) :
    isspace c = false ∧ c ≠ '-' ∧ c ≠ '+' ∧ c ≠ 'x' ∧ c ≠ 'X' ∧ c ≠ NUL := by
  revert c
  apply isxdigit_cases
  decide

theorem isxdigit_of_mem_alphabet :
    ∀ c ∈ "0123456789abcdefABCDEF".toList, isxdigit c = true := by
  decide

/-! ## Hexadecimal scanning -/

theorem strtoulValue_of_lt (n : Nat) (h : n < 2 ^ 64) : strtoulValue false n = n := by
  unfold strtoulValue
  rw [if_neg (by omega)]
  rfl

theorem scanHexDigits_all (s : List Char) (hs : ∀ c ∈ s, isxdigit c = true) (acc : Nat) :
    scanHexDigits acc s = acc * 16 ^ s.length + Nat.ofDigits 16 (s.reverse.map xdigitVal) := by
  induction s generalizing acc with
  | nil => simp [scanHexDigits]
  | cons c cs ih =>
    have hc := hs c (List.mem_cons_self _ _)
    have hcs : ∀ d ∈ cs, isxdigit d = true := fun d hd => hs d (List.mem_cons_of_mem _ hd)
    rw [scanHexDigits, if_pos hc, ih hcs]
    simp only [List.reverse_cons, List.map_append, List.map_cons, List.map_nil,
      Nat.ofDigits_append, List.length_map, List.length_reverse, List.length_cons,
      Nat.ofDigits_singleton]
    ring

theorem map_xdigitVal_eq (s : List Char) (hs : ∀ c ∈ s, isxdigit c = true) :
    s.map xdigitVal = s.map digitValue :=
  List.map_congr_left fun c hc => xdigitVal_eq c (hs c hc)

theorem hexValue_lt (s : List Char) (hs : ∀ c ∈ s, isxdigit c = true) :
    hexValue s < 16 ^ s.length := by
  have h := Nat.ofDigits_lt_base_pow_length (b := 16) (l := s.reverse.map digitValue)
    (by norm_num) (by
      intro x hx
      simp only [List.mem_map, List.mem_reverse] at hx
      obtain ⟨c, hc, rfl⟩ := hx
      rw [← xdigitVal_eq c (hs c hc)]
      exact xdigitVal_lt c (hs c hc))
  simpa [hexValue] using h

/-- The conversion on a text that consists of hexadecimal digits only. -/
theorem scanHex_digits (spec : HexSpec) (s : List Char) (hne : s ≠ [])
    (hs : ∀ c ∈ s, isxdigit c = true) :
    scanHex spec s = some (strtoulValue false (hexValue s) % 2 ^ 32) := by
  cases s with
  | nil => exact absurd rfl hne
  | cons c cs =>
    have hc := hs c (List.mem_cons_self _ _)
    obtain ⟨h1, h2, h3, h4, h5, -⟩ := isxdigit_facts c hc
    have hskip : skipSpace (c :: cs) = c :: cs := by simp [skipSpace, h1]
    have hsign : takeSign (c :: cs) = (false, c :: cs) := by simp [takeSign, h2, h3]
    have hpre : dropHexPrefix (c :: cs) = c :: cs := by
      cases cs with
      | nil => rfl
      | cons d ds =>
        have hd := hs d (by simp)
        obtain ⟨-, -, -, h4, h5, -⟩ := isxdigit_facts d hd
        simp [dropHexPrefix, h4, h5]
    have hv : scanHexDigits 0 (c :: cs) = hexValue (c :: cs) := by
      rw [scanHexDigits_all _ hs, hexValue,
        map_xdigitVal_eq _ (fun d hd => hs d (List.mem_reverse.mp hd))]
      simp
    simp only [scanHex, hskip, hsign, hpre, hc, if_true, hv]

/-- Both specifiers convert alike. -/
theorem scanHex_spec (s : List Char) : scanHex HexSpec.x s = scanHex HexSpec.X s := rfl

/-- `getHex` in terms of the conversion: the function returns what the first scan stored, or
zero when that scan stored nothing. -/
theorem getHex_eq (x : XmlBase) (s : List Char) (hx : x.m_value = some s) :
    x.getHex = some ((scanHex HexSpec.X s).getD 0) := by
  simp only [XmlBase.getHex, hx, Option.map_some', Sscanf, scanHex_spec]
  cases scanHex HexSpec.X s with
  | none => simp
  | some v => by_cases hv : v = 0 <;> simp [hv]

/-! ## Strings -/

theorem cstr_eq_nil_iff (v : List Char) : cstr v = [] ↔ v.headD NUL = NUL := by
  cases v with
  | nil => simp [cstr]
  | cons c w => by_cases hc : c = NUL <;> simp [cstr, List.takeWhile_cons, hc]

/-! ## Number formatting -/
theorem digitValue_digitChar (d : Nat) (hd : d < 16) : digitValue (digitChar d) = d := by
  interval_cases d <;> decide

theorem digitChar_mem_decimal (d : Nat) (hd : d < 10) : digitChar d ∈ "0123456789".toList := by
  interval_cases d <;> decide

theorem decimal_ne_NUL : ∀ c ∈ "0123456789".toList, (c != NUL) = true := by
  decide

theorem upperHex_ne_NUL : ∀ c ∈ "0123456789ABCDEF".toList, (c != NUL) = true := by
  decide

theorem digitChar_mem_upperHex (d : Nat) (hd : d < 16) :
    digitChar d ∈ "0123456789ABCDEF".toList := by
  interval_cases d <;> decide

theorem digitChar_eq_zero_iff (d : Nat) (hd : d < 16) : digitChar d = '0' ↔ d = 0 := by
  interval_cases d <;> decide

theorem fmtDigits_eq (base : Nat) (hb : 1 < base) (fuel : Nat) :
    ∀ (n : Nat) (acc : List Char), 0 < n → n < fuel →
      fmtDigits base fuel n acc = (Nat.digits base n).reverse.map digitChar ++ acc := by
  induction fuel with
  | zero => intro n acc _ h; exact absurd h (Nat.not_lt_zero _)
  | succ fuel ih =>
    intro n acc hn hf
    rw [fmtDigits, Nat.digits_def' hb hn]
    by_cases hq : n / base = 0
    · rw [if_pos hq, hq]
      simp
    · have hlt : n / base < fuel := by
        have := Nat.div_lt_self hn hb
        omega
      rw [if_neg hq, ih (n / base) _ (Nat.pos_of_ne_zero hq) hlt]
      simp

theorem fmtUnsigned_zero (base : Nat) : fmtUnsigned base 0 = ['0'] := by
  simp [fmtUnsigned, fmtDigits]
  decide

theorem fmtUnsigned_pos (base : Nat) (hb : 1 < base) (n : Nat) (hn : 0 < n) :
    fmtUnsigned base n = (Nat.digits base n).reverse.map digitChar := by
  rw [fmtUnsigned, fmtDigits_eq base hb (n + 1) n [] hn (Nat.lt_succ_self n), List.append_nil]


/-- What `printf` writes for an unsigned number in a base up to 16. -/
theorem fmtUnsigned_spec (base : Nat) (hb : 1 < base) (hb16 : base ≤ 16) (n : Nat) :
    fmtUnsigned base n ≠ [] ∧
    (∀ c ∈ fmtUnsigned base n, ∃ d, d < base ∧ c = digitChar d) ∧
    ((fmtUnsigned base n).head? = some '0' → fmtUnsigned base n = ['0']) ∧
    Nat.ofDigits base ((fmtUnsigned base n).reverse.map digitValue) = n ∧
    (∀ k, 0 < k → n < base ^ k → (fmtUnsigned base n).length ≤ k) := by
  rcases Nat.eq_zero_or_pos n with rfl | hn
  · rw [fmtUnsigned_zero]
    refine ⟨by simp, ?_, fun _ => rfl, by simp [digitValue], fun k hk _ => by simpa using hk⟩
    intro c hc
    exact ⟨0, by omega, by simpa using hc⟩
  · have hne : Nat.digits base n ≠ [] := Nat.digits_ne_nil_iff_ne_zero.mpr (by omega)
    rw [fmtUnsigned_pos base hb n hn]
    refine ⟨by simpa using hne, ?_, ?_, ?_, ?_⟩
    · intro c hc
      simp only [List.mem_map, List.mem_reverse] at hc
      obtain ⟨d, hd, rfl⟩ := hc
      exact ⟨d, Nat.digits_lt_base hb hd, rfl⟩
    · intro h
      exfalso
      have hlast := Nat.getLast_digit_ne_zero base (m := n) (by omega)
      rw [List.head?_map, List.head?_reverse, List.getLast?_eq_getLast _ hne] at h
      simp only [Option.map_some', Option.some.injEq] at h
      have hlt : (Nat.digits base n).getLast hne < 16 :=
        lt_of_lt_of_le (Nat.digits_lt_base hb (List.getLast_mem hne)) hb16
      exact hlast ((digitChar_eq_zero_iff _ hlt).mp h)
    · have hmap : (List.map digitChar (Nat.digits base n).reverse).reverse.map digitValue
          = Nat.digits base n := by
        rw [← List.map_reverse, List.reverse_reverse, List.map_map]
        conv_rhs => rw [← List.map_id (Nat.digits base n)]
        apply List.map_congr_left
        intro d hd
        exact digitValue_digitChar d (lt_of_lt_of_le (Nat.digits_lt_base hb hd) hb16)
      rw [hmap, Nat.ofDigits_digits]
    · intro k hk hlt
      have h1 := Nat.base_pow_length_digits_le base n hb (by omega)
      have h2 : base ^ (Nat.digits base n).length < base ^ (k + 1) := by
        calc base ^ (Nat.digits base n).length ≤ base * n := h1
          _ < base * base ^ k := Nat.mul_lt_mul_of_pos_left hlt (by omega)
          _ = base ^ (k + 1) := by ring
      have h3 := (Nat.pow_lt_pow_iff_right hb).mp h2
      simp only [List.length_map, List.length_reverse]
      omega

/-- What `%d` writes for a 32-bit `int`: the canonical decimal text, at most 11 characters
without a zero among them, so that `Sprintf` into 128 characters keeps all of it. -/
theorem fmt_d_facts (n : Int) (hn : -2 ^ 31 ≤ n ∧ n < 2 ^ 31) :
    IsCanonicalDecimal (fmt_d n) n ∧ Sprintf 128 (fmt_d n) = fmt_d n ∧
    (fmt_d n).length ≤ 11 ∧ NUL ∉ fmt_d n := by
  obtain ⟨h1, h2, h3, h4, h5⟩ := fmtUnsigned_spec 10 (by norm_num) (by norm_num) n.natAbs
  have hlen : (fmtUnsigned 10 n.natAbs).length ≤ 10 := h5 10 (by norm_num) (by omega)
  have hdec : ∀ c ∈ fmtUnsigned 10 n.natAbs, c ∈ "0123456789".toList := by
    intro c hc
    obtain ⟨d, hd, rfl⟩ := h2 c hc
    exact digitChar_mem_decimal d hd
  have hlen2 : (fmt_d n).length ≤ 11 := by
    unfold fmt_d
    split
    · rw [List.length_cons]
      omega
    · omega
  have hds : NUL ∉ fmtUnsigned 10 n.natAbs := by
    intro hm
    have := decimal_ne_NUL _ (hdec NUL hm)
    simp at this
  have hnul : NUL ∉ fmt_d n := by
    intro hmem
    unfold fmt_d at hmem
    split at hmem
    · rcases List.mem_cons.mp hmem with h | h
      · exact absurd h (by decide)
      · exact hds h
    · exact hds hmem
  refine ⟨⟨fmtUnsigned 10 n.natAbs, rfl, h1, hdec, h3, h4⟩, ?_, hlen2, hnul⟩
  unfold Sprintf
  exact List.take_of_length_le (by omega)

/-- What `%X` writes for a value below `2 ^ 32`: the upper-case base-16 text, at most 8
characters without a zero among them, so that `Sprintf` into 128 characters keeps all of
it. -/
theorem fmt_X_facts (v : Nat) (hv : v < 2 ^ 32) :
    IsUpperHexOf (fmt_X v) v ∧ Sprintf 128 (fmt_X v) = fmt_X v ∧
    (fmt_X v).length ≤ 8 ∧ NUL ∉ fmt_X v := by
  obtain ⟨h1, h2, h3, h4, h5⟩ := fmtUnsigned_spec 16 (by norm_num) (by norm_num) v
  have hlen : (fmtUnsigned 16 v).length ≤ 8 := h5 8 (by norm_num) (by omega)
  have hup : ∀ c ∈ fmtUnsigned 16 v, c ∈ "0123456789ABCDEF".toList := by
    intro c hc
    obtain ⟨d, hd, rfl⟩ := h2 c hc
    exact digitChar_mem_upperHex d hd
  have hnul : NUL ∉ fmtUnsigned 16 v := by
    intro hm
    have := upperHex_ne_NUL _ (hup NUL hm)
    simp at this
  have hfx : fmt_X v = fmtUnsigned 16 v := by
    unfold fmt_X
    rw [Nat.mod_eq_of_lt hv]
  rw [hfx]
  refine ⟨⟨h1, hup, h3, h4⟩, ?_, hlen, hnul⟩
  unfold Sprintf
  exact List.take_of_length_le (by omega)

/-! ## Claims -/

/-- C1: a freshly constructed `XmlBase`, be it the base of a node or of an attribute, has
name `""` and value `""`, both non-null; a fresh node is empty; a node whose value pointer is
set is empty exactly when it has no children and its value text is the empty string, so a
child or a non-empty value makes `isEmpty` false.  (For any node at all, `isEmpty` holds
exactly when there is no child and the value pointer is NULL or its text is empty.) -/
theorem C1_fresh_defaults_isEmpty (n : XmlNode) (hv : n.base.getValue_cstr ≠ none) :
    (XmlBase.ctor.getName = some [] ∧ XmlBase.ctor.getValue_cstr = some []) ∧
    (({ toXmlBase := XmlBase.ctor } : XmlAttribute).getName = some [] ∧
      ({ toXmlBase := XmlBase.ctor } : XmlAttribute).getValue_cstr = some []) ∧
    (∀ t : NodeType, (XmlNode.ctor t).base.getName = some [] ∧
      (XmlNode.ctor t).base.getValue_cstr = some [] ∧ (XmlNode.ctor t).isEmpty = true) ∧
    (n.isEmpty = true ↔ n.m_children = [] ∧ n.base.getValue_cstr.map cstr = some []) ∧
    (n.m_children ≠ [] → n.isEmpty = false) ∧
    (∀ v : List Char, cstr v ≠ [] → (n.setValue v).isEmpty = false) ∧
    (∀ m : XmlNode, m.isEmpty = true ↔
      m.m_children = [] ∧
        (m.base.getValue_cstr = none ∨ m.base.getValue_cstr.map cstr = some [])) := by
  have hall : ∀ m : XmlNode, m.isEmpty = true ↔
      m.m_children = [] ∧
        (m.base.getValue_cstr = none ∨ m.base.getValue_cstr.map cstr = some []) := by
    intro m
    obtain ⟨b, t, as, cs⟩ := m
    obtain ⟨nm, val, f1, f2⟩ := b
    cases cs <;> cases val <;>
      simp [XmlNode.isEmpty, XmlNode.hasChild, XmlNode.m_children, XmlNode.base,
        XmlBase.getValue_cstr, cstr_eq_nil_iff]
  refine ⟨⟨rfl, rfl⟩, ⟨rfl, rfl⟩, fun t => ⟨rfl, rfl, rfl⟩, ?_, ?_, ?_, hall⟩
  · rw [hall n]
    constructor
    · rintro ⟨h1, h2 | h2⟩
      · exact absurd h2 hv
      · exact ⟨h1, h2⟩
    · rintro ⟨h1, h2⟩
      exact ⟨h1, Or.inr h2⟩
  · intro h
    cases hb : n.isEmpty with
    | false => rfl
    | true => exact absurd ((hall n).mp hb).1 h
  · intro w hw
    have hw2 : ¬ (cstr w).headD NUL = NUL := by
      rw [← cstr_eq_nil_iff]
      simpa [cstr, List.takeWhile_takeWhile] using hw
    simp only [XmlNode.isEmpty, XmlNode.setValue, XmlBase.setValue, XmlNode.base, Strcpy]
    rw [Bool.and_eq_false_iff]
    exact Or.inr (beq_eq_false_iff_ne.mpr hw2)

/-- Witness of C1 at a fresh element node. -/
theorem C1_fresh_defaults_isEmpty_witness :
    (XmlNode.ctor NodeType.ELEMENT).base.getValue_cstr ≠ none ∧
    ((XmlNode.ctor NodeType.ELEMENT).isEmpty = true ↔
      (XmlNode.ctor NodeType.ELEMENT).m_children = [] ∧
      (XmlNode.ctor NodeType.ELEMENT).base.getValue_cstr.map cstr = some []) :=
  ⟨by decide, (C1_fresh_defaults_isEmpty (XmlNode.ctor NodeType.ELEMENT) (by decide)).2.2.2.1⟩

/-- C2: for every value text of 1 to 8 hexadecimal digits, in any mix of upper and lower
case, `getHex` returns the number the digits denote in base 16; the value `"ff"` gives 255. -/
theorem C2_getHex_hex_digits (x : XmlBase) (s : List Char)
    (hlen : 1 ≤ s.length ∧ s.length ≤ 8)
    (hs : ∀ c ∈ s, c ∈ "0123456789abcdefABCDEF".toList)
    (hx : x.getValue_cstr = some s) :
    x.getHex = some (hexValue s) ∧
    (XmlBase.ctor.setValue "ff".toList).getHex = some 255 := by
  refine ⟨?_, by decide⟩
  have hxd : ∀ c ∈ s, isxdigit c = true := fun c hc => isxdigit_of_mem_alphabet c (hs c hc)
  have hne : s ≠ [] := by
    intro h
    rw [h] at hlen
    simp at hlen
  have hlt : hexValue s < 2 ^ 32 :=
    calc hexValue s < 16 ^ s.length := hexValue_lt s hxd
      _ ≤ 16 ^ 8 := Nat.pow_le_pow_right (by norm_num) hlen.2
      _ = 2 ^ 32 := by norm_num
  rw [getHex_eq x s hx, scanHex_digits _ s hne hxd, Option.getD_some,
    strtoulValue_of_lt _ (lt_trans hlt (by norm_num)), Nat.mod_eq_of_lt hlt]

/-- Witness of C2 at the mixed-case text `"fF"`. -/
theorem C2_getHex_hex_digits_witness :
    (XmlBase.ctor.setValue "fF".toList).getHex = some (hexValue "fF".toList) ∧
    hexValue "fF".toList = 255 :=
  ⟨(C2_getHex_hex_digits (XmlBase.ctor.setValue "fF".toList) "fF".toList
      (by decide) (by decide) (by decide)).1, by decide⟩

/-- C3: `setValue<bool>` stores exactly `"true"` or `"false"`, also through
`addAttribute<bool>`, whose result is the new last attribute.  `setValue<int>` of a 32-bit
`int` formats its canonical decimal text into `sz`, which the 128-character buffer does not
truncate, but it stores nothing: its call `setValue(sz)` is bound to the primary template
`setValue<Char[128]>`, which has no definition, so there is no object with the text as its
value afterwards. -/
theorem C3_setValue_int_stores_nothing (x : XmlBase) (node : XmlNode) (name : List Char)
    (n : Int) (hn : -2 ^ 31 ≤ n ∧ n < 2 ^ 31) :
    ((x.setValue_bool true).getValue_cstr = some "true".toList ∧
      (x.setValue_bool false).getValue_cstr = some "false".toList) ∧
    (∀ b : Bool,
      (node.addAttribute_T XmlBase.setValue_bool name b).2.getValue_cstr =
        some (if b then "true".toList else "false".toList) ∧
      (node.addAttribute_T XmlBase.setValue_bool name b).1.m_attributes.getLast? =
        some (node.addAttribute_T XmlBase.setValue_bool name b).2) ∧
    (IsCanonicalDecimal (Sprintf 128 (fmt_d n)) n ∧ Sprintf 128 (fmt_d n) = fmt_d n ∧
      (fmt_d n).length ≤ 11) ∧
    x.setValue_int n = none ∧
    (x.setValue_int n).bind XmlBase.getValue_cstr = none ∧
    (XmlBase.ctor.setValue_int 5).bind XmlBase.getValue_cstr ≠ some "5".toList := by
  obtain ⟨h1, h2, h3, -⟩ := fmt_d_facts n hn
  refine ⟨⟨rfl, rfl⟩, ?_, ⟨by rw [h2]; exact h1, h2, h3⟩, rfl, rfl, by decide⟩
  intro b
  constructor
  · cases b <;> rfl
  · simp [XmlNode.addAttribute_T, XmlNode.storeLastAttribute, XmlNode.m_attributes]

/-- Witness of C3 at `INT_MIN`: the text formatted into `sz` is `-2147483648`, and no text is
stored. -/
theorem C3_setValue_int_stores_nothing_witness :
    Sprintf 128 (fmt_d (-2147483648)) = "-2147483648".toList ∧
    XmlBase.ctor.setValue_int (-2147483648) = none :=
  ⟨by decide, (C3_setValue_int_stores_nothing XmlBase.ctor (XmlNode.ctor NodeType.ELEMENT)
    "n".toList (-2147483648) (by decide)).2.2.2.1⟩

/-- C4: `readAttribute<T>` returns the default when `findAttribute` reports no attribute, and
otherwise the attribute's `getValue<T>()`, whatever the default is; so the default is what
comes back for every default exactly when the attribute is absent.  A present attribute whose
text does not parse is read as the conversion's zero, not as the default. -/
theorem C4_readAttribute_default_iff_absent {T : Type} (getValue_T : XmlBase → Option T)
    (node : XmlNode) (name : List Char) (d1 d2 : T) (hd : d1 ≠ d2) :
    (node.findAttribute name = none → ∀ d : T, node.readAttribute getValue_T name d = some d) ∧
    (∀ a : XmlAttribute, node.findAttribute name = some a →
      (∀ d : T, node.readAttribute getValue_T name d = getValue_T a.toXmlBase) ∧
      (∀ d : Bool, node.readAttribute XmlBase.getValue_bool name d = a.getValue_bool) ∧
      (∀ d : Int, node.readAttribute XmlBase.getValue_int name d = a.getValue_int) ∧
      (∀ d : Option (List Char),
        node.readAttribute (fun x => some x.getValue_cstr) name d = some a.getValue_cstr)) ∧
    (node.findAttribute name = none ↔
      ∀ d : T, node.readAttribute getValue_T name d = some d) ∧
    ((XmlNode.ctor NodeType.ELEMENT).addAttribute (some "n".toList) (some "abc".toList)).1.readAttribute
      XmlBase.getValue_int "n".toList 7 = some 0 := by
  refine ⟨?_, ?_, ?_, by decide⟩
  · intro h d
    simp [XmlNode.readAttribute, h]
  · intro a h
    simp [XmlNode.readAttribute, h]
  · constructor
    · intro h d
      simp [XmlNode.readAttribute, h]
    · intro h
      cases hf : node.findAttribute name with
      | none => rfl
      | some a =>
        exfalso
        have h1 := h d1
        have h2 := h d2
        simp only [XmlNode.readAttribute, hf] at h1 h2
        exact hd (Option.some.inj (h1.symm.trans h2))

/-- Witness of C4: the attribute `n="abc"` read as `int` with defaults 7 and 8. -/
theorem C4_readAttribute_default_iff_absent_witness :
    (7 : Int) ≠ 8 ∧
    (((XmlNode.ctor NodeType.ELEMENT).addAttribute (some "n".toList)
        (some "abc".toList)).1.findAttribute "n".toList = none ↔
      ∀ d : Int, ((XmlNode.ctor NodeType.ELEMENT).addAttribute (some "n".toList)
        (some "abc".toList)).1.readAttribute XmlBase.getValue_int "n".toList d = some d) :=
  ⟨by decide, (C4_readAttribute_default_iff_absent XmlBase.getValue_int
    ((XmlNode.ctor NodeType.ELEMENT).addAttribute (some "n".toList) (some "abc".toList)).1
    "n".toList 7 8 (by decide)).2.2.1⟩

/-! ## Conversions without a prefix -/

theorem skipSpace_eq_dropWhile (s : List Char) : skipSpace s = s.dropWhile isspace := by
  induction s with
  | nil => rfl
  | cons c cs ih =>
    by_cases h : isspace c = true
    · simp [skipSpace, List.dropWhile_cons, h, ih]
    · simp [skipSpace, List.dropWhile_cons, h]

theorem takeSign_snd (r : List Char) :
    (takeSign r).2 = if r.head? = some '-' ∨ r.head? = some '+' then r.tail else r := by
  cases r with
  | nil => simp [takeSign]
  | cons c cs =>
    by_cases h1 : c = '-'
    · simp [takeSign, h1]
    · by_cases h2 : c = '+'
      · simp [takeSign, h2]
      · simp [takeSign, h1, h2]

theorem takeSign_skipSpace (s : List Char) :
    (takeSign (skipSpace s)).2 = afterSpaceAndSign s := by
  rw [takeSign_snd, skipSpace_eq_dropWhile]
  rfl

theorem isdigit_mem (c : Char) (h : isdigit c = true) : c ∈ "0123456789".toList := by
  simp only [isdigit, Bool.and_eq_true, decide_eq_true_eq] at h
  obtain ⟨n, hn⟩ : ∃ n, c.toNat = n := ⟨_, rfl⟩
  rw [hn] at h
  have hc := char_eq_of_toNat hn
  subst hc
  obtain ⟨h1, h2⟩ := h
  interval_cases n <;> decide

theorem isxdigit_mem (c : Char) (h : isxdigit c = true) :
    c ∈ "0123456789abcdefABCDEF".toList :=
  isxdigit_cases (fun c => c ∈ "0123456789abcdefABCDEF".toList) (fun _ hc => hc) c h

theorem toInt32_range (z : Int) : -2 ^ 31 ≤ toInt32 z ∧ toInt32 z < 2 ^ 31 := by
  unfold toInt32
  omega

theorem clampLong_of_mem (z : Int) (h : -2 ^ 63 ≤ z ∧ z ≤ 2 ^ 63 - 1) : clampLong z = z := by
  unfold clampLong
  rw [if_neg (by omega), if_neg (by omega)]

theorem StrToI_noPrefix (s : List Char) (h : NoNumericPrefix s) : StrToI s = 0 := by
  have hscan : scanDec 0 (takeSign (skipSpace s)).2 = 0 := by
    rw [takeSign_skipSpace]
    cases hr : afterSpaceAndSign s with
    | nil => rfl
    | cons c cs =>
      have hc : isdigit c = false := by
        by_contra hd
        exact h c (by rw [hr]; simp) (isdigit_mem c (by simpa using hd))
      simp [scanDec, hc]
  have hclamp : clampLong 0 = 0 := by decide
  simp [StrToI, hscan, hclamp, toInt32]

theorem scanHex_noPrefix (spec : HexSpec) (s : List Char) (h : NoHexPrefix s) :
    scanHex spec s = none := by
  unfold scanHex
  simp only [takeSign_skipSpace]
  cases hr : afterSpaceAndSign s with
  | nil => rfl
  | cons c cs =>
    have hc : isxdigit c = false := by
      by_contra hd
      exact h c (by rw [hr]; simp) (isxdigit_mem c (by simpa using hd))
    simp [hc]

theorem scanHex_lt (spec : HexSpec) (s : List Char) (v : Nat) (h : scanHex spec s = some v) :
    v < 2 ^ 32 := by
  simp only [scanHex] at h
  split at h
  · exact absurd h (by simp)
  · split at h
    · simp only [Option.some.injEq] at h
      rw [← h]
      exact Nat.mod_lt _ (by norm_num)
    · exact absurd h (by simp)

/-! ## Claims, continued -/

/-- C5: a value text without numeric prefix is read by `getValue<int>` as 0 and a value text
without hexadecimal prefix is read by `getHex` as 0; on every value text both conversions
return a number, within the range of their result type.  A text whose number does not fit is
no exception: the library saturates and the conversion keeps the low 32 bits, so that
`9223372036854775808` is read as -1, `2147483648` as -2147483648 and seventeen hexadecimal
digits as 4294967295. -/
theorem C5_conversion_failure_zero (x : XmlBase) (s : List Char)
    (hx : x.getValue_cstr = some s) :
    (NoNumericPrefix s → x.getValue_int = some 0) ∧
    (NoHexPrefix s → x.getHex = some 0) ∧
    (∃ v : Int, x.getValue_int = some v ∧ -2 ^ 31 ≤ v ∧ v < 2 ^ 31) ∧
    (∃ u : Nat, x.getHex = some u ∧ u < 2 ^ 32) ∧
    ((XmlBase.ctor.setValue "9223372036854775808".toList).getValue_int = some (-1) ∧
      (XmlBase.ctor.setValue "-9223372036854775809".toList).getValue_int = some 0 ∧
      (XmlBase.ctor.setValue "2147483648".toList).getValue_int = some (-2147483648) ∧
      (XmlBase.ctor.setValue "11111111111111111".toList).getHex = some 4294967295 ∧
      (XmlBase.ctor.setValue "1234567890".toList).getHex = some 878082192 ∧
      (XmlBase.ctor.setValue "-1".toList).getHex = some 4294967295) := by
  have hx2 : x.m_value = some s := hx
  refine ⟨?_, ?_, ?_, ?_, by decide⟩
  · intro h
    simp [XmlBase.getValue_int, hx2, StrToI_noPrefix s h]
  · intro h
    rw [getHex_eq x s hx2, scanHex_noPrefix _ s h]
    rfl
  · exact ⟨StrToI s, by simp [XmlBase.getValue_int, hx2], toInt32_range _⟩
  · refine ⟨_, getHex_eq x s hx2, ?_⟩
    cases hv : scanHex HexSpec.X s with
    | none => simp
    | some v => simpa using scanHex_lt _ s v hv

/-- Witness of C5 at the value texts `"abc"` (no numeric prefix) and `"xyz"` (no hexadecimal
prefix). -/
theorem C5_conversion_failure_zero_witness :
    (NoNumericPrefix "abc".toList ∧
      (XmlBase.ctor.setValue "abc".toList).getValue_int = some 0) ∧
    (NoHexPrefix "xyz".toList ∧ (XmlBase.ctor.setValue "xyz".toList).getHex = some 0) ∧
    NoNumericPrefix [] ∧ NoHexPrefix [] :=
  ⟨⟨by unfold NoNumericPrefix; decide,
    (C5_conversion_failure_zero (XmlBase.ctor.setValue "abc".toList) "abc".toList rfl).1
      (by unfold NoNumericPrefix; decide)⟩,
   ⟨by unfold NoHexPrefix; decide,
    (C5_conversion_failure_zero (XmlBase.ctor.setValue "xyz".toList) "xyz".toList rfl).2.1
      (by unfold NoHexPrefix; decide)⟩,
   by unfold NoNumericPrefix; decide, by unfold NoHexPrefix; decide⟩

/-! ## Child iteration -/

theorem childWalk_node (node : XmlNode) (k : Nat) : (childWalk node k).1 = node := by
  induction k with
  | zero => rfl
  | succ k ih => simp only [childWalk, ih]

theorem childWalk_spec (node : XmlNode) (k : Nat) :
    (childWalk node k).2.1 = min k node.m_children.length ∧
    (childWalk node k).2.2 = node.m_children[k]? := by
  induction k with
  | zero =>
    cases h : node.m_children with
    | nil => simp [childWalk, XmlNode.getFirstChild, h]
    | cons c cs => simp [childWalk, XmlNode.getFirstChild, h]
  | succ k ih =>
    obtain ⟨ih1, ih2⟩ := ih
    simp only [childWalk, childWalk_node, XmlNode.getNextChild, ih1]
    by_cases h1 : k < node.m_children.length
    · have hmin : min k node.m_children.length = k := Nat.min_eq_left (le_of_lt h1)
      have hne : k ≠ node.m_children.length := by omega
      rw [hmin, if_pos hne]
      by_cases h2 : k + 1 = node.m_children.length
      · rw [if_neg (not_not.mpr h2)]
        refine ⟨by rw [h2, Nat.min_self], ?_⟩
        symm
        exact List.getElem?_eq_none (by omega)
      · rw [if_pos h2]
        exact ⟨(Nat.min_eq_left (by omega)).symm, rfl⟩
    · have hmin : min k node.m_children.length = node.m_children.length :=
        Nat.min_eq_right (by omega)
      rw [hmin, if_neg (not_not.mpr rfl)]
      refine ⟨(Nat.min_eq_right (by omega)).symm, ?_⟩
      symm
      exact List.getElem?_eq_none (by omega)

/-- C6: `getFirstChild` returns the first child (NULL for a node without children); the
`k`-th following `getNextChild` on the same iterator returns child `k` when `k` is below the
child count and NULL from then on; the iterator never moves past the end, where further calls
leave it and return NULL; the child sequence is the same after any number of calls. -/
theorem C6_child_iteration_order (node : XmlNode) (iter0 : NodeIterator) (k : Nat) :
    (node.getFirstChild iter0).2 = node.m_children.head? ∧
    (node.m_children = [] → (node.getFirstChild iter0).2 = none) ∧
    (childWalk node 0).2 = node.getFirstChild iter0 ∧
    (∀ h : k < node.getChildCount, (childWalk node k).2.2 = some (node.m_children.get ⟨k, h⟩)) ∧
    (node.getChildCount ≤ k → (childWalk node k).2.2 = none) ∧
    (childWalk node k).2.1 = min k node.getChildCount ∧
    node.getNextChild node.getChildCount = (node.getChildCount, none) ∧
    (childWalk node k).1.m_children = node.m_children := by
  obtain ⟨h1, h2⟩ := childWalk_spec node k
  refine ⟨?_, ?_, rfl, ?_, ?_, h1, ?_, by rw [childWalk_node]⟩
  · cases h : node.m_children <;> simp [XmlNode.getFirstChild, h]
  · intro h
    simp [XmlNode.getFirstChild, h]
  · intro h
    rw [h2]
    exact List.getElem?_eq_getElem h
  · intro h
    rw [h2]
    exact List.getElem?_eq_none h
  · simp [XmlNode.getNextChild, XmlNode.getChildCount]

/-- Witness of C6 on a node with two children: the call after `getFirstChild` returns the
second child and the call after that returns NULL with the iterator at the end. -/
theorem C6_child_iteration_order_witness :
    (∃ h : 1 < (XmlNode.mk XmlBase.ctor NodeType.ELEMENT []
          [XmlNode.ctor NodeType.COMMENT, XmlNode.ctor NodeType.ELEMENT]).getChildCount,
      (childWalk (XmlNode.mk XmlBase.ctor NodeType.ELEMENT []
          [XmlNode.ctor NodeType.COMMENT, XmlNode.ctor NodeType.ELEMENT]) 1).2.2 =
        some ((XmlNode.mk XmlBase.ctor NodeType.ELEMENT []
          [XmlNode.ctor NodeType.COMMENT, XmlNode.ctor NodeType.ELEMENT]).m_children.get ⟨1, h⟩)) ∧
    (childWalk (XmlNode.mk XmlBase.ctor NodeType.ELEMENT []
          [XmlNode.ctor NodeType.COMMENT, XmlNode.ctor NodeType.ELEMENT]) 2).2.2 = none :=
  ⟨⟨by decide, (C6_child_iteration_order (XmlNode.mk XmlBase.ctor NodeType.ELEMENT []
      [XmlNode.ctor NodeType.COMMENT, XmlNode.ctor NodeType.ELEMENT]) 0 1).2.2.2.1 (by decide)⟩,
   (C6_child_iteration_order (XmlNode.mk XmlBase.ctor NodeType.ELEMENT []
      [XmlNode.ctor NodeType.COMMENT, XmlNode.ctor NodeType.ELEMENT]) 0 2).2.2.2.2.1 (by decide)⟩

/-! ## Attributes -/

/-- C7: `addAttribute(name, value)` appends exactly one attribute at the end of the attribute
sequence; the earlier attributes keep their positions and contents, whatever their names; the
children, the kind and the node's own name and value are unchanged; the returned attribute is
the new last element, with name text `name` and value text `value`, a NULL argument leaving
the corresponding field the empty string. -/
theorem C7_addAttribute_appends (node : XmlNode) (name value : Option (List Char)) :
    (node.addAttribute name value).1.m_attributes =
      node.m_attributes ++ [(node.addAttribute name value).2] ∧
    (node.addAttribute name value).1.m_attributes.length = node.m_attributes.length + 1 ∧
    (∀ i, i < node.m_attributes.length →
      (node.addAttribute name value).1.m_attributes[i]? = node.m_attributes[i]?) ∧
    (node.addAttribute name value).1.m_attributes.getLast? =
      some (node.addAttribute name value).2 ∧
    (node.addAttribute name value).1.m_children = node.m_children ∧
    (node.addAttribute name value).1.base = node.base ∧
    (node.addAttribute name value).1.m_type = node.m_type ∧
    (node.addAttribute name value).2.getName = some ((name.map cstr).getD []) ∧
    (node.addAttribute name value).2.getValue_cstr = some ((value.map cstr).getD []) := by
  have h0 : (node.addAttribute name value).1.m_attributes =
      node.m_attributes ++ [(node.addAttribute name value).2] := rfl
  refine ⟨h0, by rw [h0]; simp, ?_, by rw [h0]; simp, rfl, rfl, rfl, ?_, ?_⟩
  · intro i hi
    rw [h0, List.getElem?_append_left hi]
  · cases name <;> cases value <;> rfl
  · cases name <;> cases value <;> rfl

/-- Witness of C7: adding `x="2"` to a node that already has `x="1"` keeps the earlier
attribute in front of the new one. -/
theorem C7_addAttribute_appends_witness :
    ((((XmlNode.ctor NodeType.ELEMENT).addAttribute (some "x".toList)
        (some "1".toList)).1.addAttribute (some "x".toList) (some "2".toList)).1.m_attributes.map
      fun a => (a.getName, a.getValue_cstr)) =
      [(some "x".toList, some "1".toList), (some "x".toList, some "2".toList)] ∧
    (((XmlNode.ctor NodeType.ELEMENT).addAttribute (some "x".toList)
        (some "1".toList)).1.addAttribute (some "x".toList) (some "2".toList)).1.m_attributes[0]? =
      ((XmlNode.ctor NodeType.ELEMENT).addAttribute (some "x".toList)
        (some "1".toList)).1.m_attributes[0]? :=
  ⟨by decide, (C7_addAttribute_appends ((XmlNode.ctor NodeType.ELEMENT).addAttribute
    (some "x".toList) (some "1".toList)).1 (some "x".toList) (some "2".toList)).2.2.1 0
    (by decide)⟩

/-! ## The name and value invariant -/

theorem NUL_not_mem_cstr (s : List Char) : NUL ∉ cstr s := by
  intro h
  have := List.mem_takeWhile_imp h
  simp at this

theorem readArg_outside (x : XmlBase) (b1 b2 : Bool) (s : List Char) :
    x.readArg b1 b2 (CharPtr.outside s) = some s := rfl

theorem setValue_ptr_outside (x : XmlBase) (s : List Char) :
    x.setValue_ptr (CharPtr.outside s) = some (x.setValue s) := rfl

theorem setName_ptr_outside (x : XmlBase) (s : List Char) :
    x.setName_ptr (CharPtr.outside s) = some (x.setName s) := rfl

/-- A pointer-level `setValue` that has a result stored the text it read. -/
theorem setValue_ptr_eq_some (x y : XmlBase) (p : CharPtr) (h : x.setValue_ptr p = some y) :
    ∃ t, x.readArg false (x.m_valueAllocated && x.m_value.isSome) p = some t ∧
      y = x.setValue t := by
  unfold XmlBase.setValue_ptr at h
  cases hr : x.readArg false (x.m_valueAllocated && x.m_value.isSome) p with
  | none => simp [hr] at h
  | some t =>
    simp only [hr, Option.some.injEq] at h
    exact ⟨t, rfl, h.symm⟩

/-- A pointer-level `setName` that has a result stored the text it read. -/
theorem setName_ptr_eq_some (x y : XmlBase) (p : CharPtr) (h : x.setName_ptr p = some y) :
    ∃ t, x.readArg (x.m_nameAllocated && x.m_name.isSome) false p = some t ∧
      y = x.setName t := by
  unfold XmlBase.setName_ptr at h
  cases hr : x.readArg (x.m_nameAllocated && x.m_name.isSome) false p with
  | none => simp [hr] at h
  | some t =>
    simp only [hr, Option.some.injEq] at h
    exact ⟨t, rfl, h.symm⟩

/-- Every setter call that has a result keeps name and value zero-terminated texts. -/
theorem IsText_setters (x y : XmlBase) (c : SetterCall) (hc : c.apply x = some y)
    (h : IsText x.getName ∧ IsText x.getValue_cstr) :
    IsText y.getName ∧ IsText y.getValue_cstr := by
  obtain ⟨hn, hv⟩ := h
  cases c with
  | setName p =>
    obtain ⟨t, -, rfl⟩ := setName_ptr_eq_some x y p hc
    exact ⟨⟨_, rfl, NUL_not_mem_cstr _⟩, hv⟩
  | setValue p =>
    obtain ⟨t, -, rfl⟩ := setValue_ptr_eq_some x y p hc
    exact ⟨hn, ⟨_, rfl, NUL_not_mem_cstr _⟩⟩
  | setValue_String v =>
    cases hc
    exact ⟨hn, ⟨_, rfl, NUL_not_mem_cstr _⟩⟩
  | setValue_bool v =>
    cases hc
    exact ⟨hn, ⟨_, rfl, NUL_not_mem_cstr _⟩⟩
  | setValue_int v => cases hc
  | setHex v => cases hc

theorem IsText_runSetters (calls : List SetterCall) :
    ∀ x y : XmlBase, runSetters x calls = some y →
      IsText x.getName ∧ IsText x.getValue_cstr →
      IsText y.getName ∧ IsText y.getValue_cstr := by
  induction calls with
  | nil =>
    intro x y h hx
    cases h
    exact hx
  | cons c cs ih =>
    intro x y h hx
    rw [runSetters] at h
    cases hc : c.apply x with
    | none => simp [hc] at h
    | some z =>
      simp only [hc] at h
      exact ih z y h (IsText_setters x z c hc hx)

theorem runSetters_plain (calls : List SetterCall) :
    ∀ x : XmlBase, (∀ c ∈ calls, c.isPlain = true) → ∃ y, runSetters x calls = some y := by
  induction calls with
  | nil => intro x _; exact ⟨x, rfl⟩
  | cons c cs ih =>
    intro x h
    have hc := h c (List.mem_cons_self _ _)
    have hcs : ∀ d ∈ cs, d.isPlain = true := fun d hd => h d (List.mem_cons_of_mem _ hd)
    have hap : ∃ z, c.apply x = some z := by
      cases c with
      | setName p =>
        cases p with
        | outside t => exact ⟨_, rfl⟩
        | intoName k => simp [SetterCall.isPlain] at hc
        | intoValue k => simp [SetterCall.isPlain] at hc
      | setValue p =>
        cases p with
        | outside t => exact ⟨_, rfl⟩
        | intoName k => simp [SetterCall.isPlain] at hc
        | intoValue k => simp [SetterCall.isPlain] at hc
      | setValue_String v => exact ⟨_, rfl⟩
      | setValue_bool v => exact ⟨_, rfl⟩
      | setValue_int v => simp [SetterCall.isPlain] at hc
      | setHex v => simp [SetterCall.isPlain] at hc
    obtain ⟨z, hz⟩ := hap
    obtain ⟨y, hy⟩ := ih z hcs
    exact ⟨y, by rw [runSetters, hz]; exact hy⟩

/-- C8: the invariant holds of the code only where the calls have a defined result.  A fresh
`XmlBase` has the empty string as name and value, and after every sequence of setter calls
that has a result, `getName()` and `getValue<const Char*>()` are non-null zero-terminated
texts; a sequence of `setName`, `setValue(const Char*)`, `setValue<String>` and
`setValue<bool>` calls with arguments outside the object always has a result.  But a
`setValue<int>` or `setHex` call has none (its `setValue(sz)` is bound to the primary
template, which has no definition), and neither has `setValue(getValue<const Char*>())` or
`setName(getName())` on an object that owns the buffer: the buffer is released before the
argument is read. -/
theorem C8_invariant_where_defined (calls : List SetterCall) :
    (runSetters XmlBase.ctor [SetterCall.setValue_int 5] = none ∧
      runSetters XmlBase.ctor [SetterCall.setHex 255] = none) ∧
    (runSetters XmlBase.ctor [SetterCall.setValue (CharPtr.outside "a".toList),
        SetterCall.setValue (CharPtr.intoValue 0)] = none ∧
      runSetters XmlBase.ctor [SetterCall.setName (CharPtr.outside "a".toList),
        SetterCall.setName (CharPtr.intoName 0)] = none) ∧
    (∀ y : XmlBase, runSetters XmlBase.ctor calls = some y →
      (y.getName ≠ none ∧ y.getValue_cstr ≠ none) ∧
      (IsText y.getName ∧ IsText y.getValue_cstr)) ∧
    ((∀ c ∈ calls, c.isPlain = true) → ∃ y : XmlBase, runSetters XmlBase.ctor calls = some y) ∧
    (runSetters XmlBase.ctor [] = some XmlBase.ctor ∧
      XmlBase.ctor.getName = some [] ∧ XmlBase.ctor.getValue_cstr = some []) := by
  refine ⟨⟨rfl, rfl⟩, ⟨by decide, by decide⟩, ?_, runSetters_plain calls XmlBase.ctor,
    ⟨rfl, rfl, rfl⟩⟩
  intro y hy
  have h := IsText_runSetters calls XmlBase.ctor y hy ⟨⟨[], rfl, by simp⟩, ⟨[], rfl, by simp⟩⟩
  refine ⟨?_, h⟩
  obtain ⟨⟨s, hs, -⟩, ⟨t, ht, -⟩⟩ := h
  exact ⟨by rw [hs]; simp, by rw [ht]; simp⟩

/-- Witness of C8: a sequence of plain calls has a result, and name and value are set in
it. -/
theorem C8_invariant_where_defined_witness :
    ∃ y : XmlBase,
      runSetters XmlBase.ctor [SetterCall.setName (CharPtr.outside "n".toList),
        SetterCall.setValue_bool true, SetterCall.setValue_String "v".toList] = some y ∧
      y.getName ≠ none ∧ y.getValue_cstr ≠ none :=
  match (C8_invariant_where_defined [SetterCall.setName (CharPtr.outside "n".toList),
      SetterCall.setValue_bool true, SetterCall.setValue_String "v".toList]).2.2.2.1
      (by decide) with
  | ⟨y, hy⟩ => ⟨y, hy, ((C8_invariant_where_defined [SetterCall.setName
      (CharPtr.outside "n".toList), SetterCall.setValue_bool true,
      SetterCall.setValue_String "v".toList]).2.2.1 y hy).1⟩

/-! ## Label scanning -/

theorem scanLabel_outside_skip (pre : List Char) (hpre : '<' ∉ pre) (rest : List Char) :
    scanLabel ScanState.Outside [] (pre ++ rest) = scanLabel ScanState.Outside [] rest := by
  induction pre with
  | nil => rfl
  | cons c cs ih =>
    have hc : c ≠ '<' := fun h => hpre (by simp [h])
    have hcs : '<' ∉ cs := fun h => hpre (List.mem_cons_of_mem _ h)
    rw [List.cons_append, scanLabel]
    · simp only [hc, if_false]
      exact ih hcs
    · intro cs' h
      exact absurd h hc

theorem scanLabel_outside_open (body : List Char) (hb : body.head? ≠ some '!') :
    scanLabel ScanState.Outside [] ('<' :: body) = scanLabel ScanState.InTag ['<'] body := by
  rw [scanLabel]
  · simp
  · intro cs' _ h
    rw [h] at hb
    exact hb rfl

theorem scanLabel_inTag_skip (t : List Char)
    (ht : ∀ c ∈ t, c ≠ QUOT ∧ c ≠ APOS ∧ c ≠ '>') (acc rest : List Char) :
    scanLabel ScanState.InTag acc (t ++ rest) =
      scanLabel ScanState.InTag (t.reverse ++ acc) rest := by
  induction t generalizing acc with
  | nil => rfl
  | cons c cs ih =>
    obtain ⟨h1, h2, h3⟩ := ht c (List.mem_cons_self _ _)
    rw [List.cons_append, scanLabel]
    simp only [h1, h2, h3, or_self, if_false]
    rw [ih (fun d hd => ht d (List.mem_cons_of_mem _ hd))]
    simp

theorem scanLabel_inQuote_skip (q : Char) (v : List Char) (hv : q ∉ v)
    (acc rest : List Char) :
    scanLabel (ScanState.InQuote q) acc (v ++ q :: rest) =
      scanLabel ScanState.InTag (q :: (v.reverse ++ acc)) rest := by
  induction v generalizing acc with
  | nil => simp [scanLabel]
  | cons c cs ih =>
    have hc : c ≠ q := fun h => hv (by simp [h])
    rw [List.cons_append, scanLabel]
    simp only [hc, if_false]
    rw [ih (fun h => hv (List.mem_cons_of_mem _ h))]
    simp

/-- In a tag, the scanner reads over any sequence of plain characters and quoted values. -/
theorem scanLabel_inTag_pieces (pieces : List TagPiece) (hwf : ∀ p ∈ pieces, p.wf) :
    ∀ acc rest : List Char,
      scanLabel ScanState.InTag acc (tagText pieces ++ rest) =
        scanLabel ScanState.InTag ((tagText pieces).reverse ++ acc) rest := by
  induction pieces with
  | nil => intro acc rest; rfl
  | cons p ps ih =>
    intro acc rest
    have hp := hwf p (List.mem_cons_self _ _)
    have hps : ∀ r ∈ ps, r.wf := fun r hr => hwf r (List.mem_cons_of_mem _ hr)
    cases p with
    | plain c =>
      have hc : ∀ d ∈ [c], d ≠ QUOT ∧ d ≠ APOS ∧ d ≠ '>' := by
        intro d hd
        rw [List.mem_singleton] at hd
        rw [hd]
        exact hp
      have h1 := scanLabel_inTag_skip [c] hc acc (tagText ps ++ rest)
      simp only [tagText, TagPiece.text, List.append_assoc]
      rw [h1, ih hps]
      simp
    | quoted q v =>
      obtain ⟨hq, hv⟩ := hp
      have hstep : scanLabel ScanState.InTag acc (q :: (v ++ q :: (tagText ps ++ rest))) =
          scanLabel (ScanState.InQuote q) (q :: acc) (v ++ q :: (tagText ps ++ rest)) := by
        rw [scanLabel]
        simp [hq]
      simp only [tagText, TagPiece.text, List.cons_append, List.append_assoc,
        List.singleton_append, List.nil_append]
      rw [hstep, scanLabel_inQuote_skip q v hv, ih hps]
      simp

/-- C10: the scanner does not end a label at a `>` inside a quoted attribute value: a label
whose text is any sequence of plain characters and quoted values, each quoted value holding
any characters but its own quote, is returned whole, delimiters included, with the cursor
behind the first `>` outside the quotes.  On the input `<a x=">"/>` the scanner returns the
whole text as one label and no further label, and the label interpreter makes of it a
self-closing element `a` with the single attribute `x` of value `>`; the label
`<a x="1" y=">"/>`, with the `>` in its second quoted value, is returned whole as well. -/
theorem C10_quote_aware_scanning (pre rest : List Char) (pieces : List TagPiece)
    (hpre : '<' ∉ pre) (hwf : ∀ p ∈ pieces, p.wf)
    (hbang : (tagText pieces).head? ≠ some '!') :
    findLabel (pre ++ '<' :: (tagText pieces ++ '>' :: rest)) =
      some ('<' :: (tagText pieces ++ ['>']), rest) ∧
    findLabel ("<a x=".toList ++ [QUOT, '>', QUOT] ++ "/>".toList) =
      some ("<a x=".toList ++ [QUOT, '>', QUOT] ++ "/>".toList, []) ∧
    findLabel [] = none ∧
    (parseLabel (XmlNode.ctor NodeType.ELEMENT)
        ("<a x=".toList ++ [QUOT, '>', QUOT] ++ "/>".toList)).2 = true ∧
    (parseLabel (XmlNode.ctor NodeType.ELEMENT)
        ("<a x=".toList ++ [QUOT, '>', QUOT] ++ "/>".toList)).1.base.getName =
      some "a".toList ∧
    ((parseLabel (XmlNode.ctor NodeType.ELEMENT)
        ("<a x=".toList ++ [QUOT, '>', QUOT] ++ "/>".toList)).1.m_attributes.map
      fun a => (a.getName, a.getValue_cstr)) = [(some "x".toList, some ">".toList)] ∧
    (parseLabel (XmlNode.ctor NodeType.ELEMENT)
        ("<a x=".toList ++ [QUOT, '>', QUOT] ++ "/>".toList)).1.isEmpty = true ∧
    findLabel ("<a x=".toList ++ [QUOT, '1', QUOT] ++ " y=".toList ++ [QUOT, '>', QUOT] ++
        "/><b/>".toList) =
      some ("<a x=".toList ++ [QUOT, '1', QUOT] ++ " y=".toList ++ [QUOT, '>', QUOT] ++
        "/>".toList, "<b/>".toList) ∧
    ((parseLabel (XmlNode.ctor NodeType.ELEMENT)
        ("<a x=".toList ++ [QUOT, '1', QUOT] ++ " y=".toList ++ [QUOT, '>', QUOT] ++
          "/>".toList)).1.m_attributes.map
      fun a => (a.getName, a.getValue_cstr)) =
      [(some "x".toList, some "1".toList), (some "y".toList, some ">".toList)] := by
  refine ⟨?_, by decide, by decide, by decide, by decide, by decide, by decide, by decide,
    by decide⟩
  have hb : (tagText pieces ++ '>' :: rest).head? ≠ some '!' := by
    cases h : tagText pieces with
    | nil => simp
    | cons c cs =>
      rw [h] at hbang
      simpa using hbang
  rw [findLabel, scanLabel_outside_skip pre hpre, scanLabel_outside_open _ hb,
    scanLabel_inTag_pieces pieces hwf, scanLabel]
  have hgt : ¬ ('>' = QUOT ∨ '>' = APOS) := by decide
  simp [hgt]

/-- Witness of C10: the label `<a x='1' y=">">` with a value in single quotes, a value in
double quotes that holds `>`, and text behind it. -/
theorem C10_quote_aware_scanning_witness :
    findLabel ([] ++ '<' :: (tagText [TagPiece.plain 'a', TagPiece.plain ' ',
        TagPiece.plain 'x', TagPiece.plain '=', TagPiece.quoted APOS "1".toList,
        TagPiece.plain ' ', TagPiece.plain 'y', TagPiece.plain '=',
        TagPiece.quoted QUOT ">".toList] ++ '>' :: "t".toList)) =
      some ('<' :: (tagText [TagPiece.plain 'a', TagPiece.plain ' ',
        TagPiece.plain 'x', TagPiece.plain '=', TagPiece.quoted APOS "1".toList,
        TagPiece.plain ' ', TagPiece.plain 'y', TagPiece.plain '=',
        TagPiece.quoted QUOT ">".toList] ++ ['>']), "t".toList) :=
  (C10_quote_aware_scanning [] "t".toList [TagPiece.plain 'a', TagPiece.plain ' ',
    TagPiece.plain 'x', TagPiece.plain '=', TagPiece.quoted APOS "1".toList,
    TagPiece.plain ' ', TagPiece.plain 'y', TagPiece.plain '=',
    TagPiece.quoted QUOT ">".toList] (by decide)
    (by
      intro p hp
      simp only [List.mem_cons, List.mem_singleton, List.not_mem_nil, or_false] at hp
      rcases hp with rfl | rfl | rfl | rfl | rfl | rfl | rfl | rfl | rfl <;>
        simp only [TagPiece.wf] <;> decide)
    (by decide)).1

/-! ## Text comparison -/

theorem toNat_eq_zero_iff (c : Char) : c.toNat = 0 ↔ c = NUL := by
  constructor
  · intro h
    exact char_eq_of_toNat h
  · rintro rfl
    rfl

theorem toNat_injective {a b : Char} (h : a.toNat = b.toNat) : a = b := by
  rw [← Char.ofNat_toNat a, ← Char.ofNat_toNat b, h]

theorem cstr_cons (c : Char) (cs : List Char) :
    cstr (c :: cs) = if c = NUL then [] else c :: cstr cs := by
  by_cases h : c = NUL <;> simp [cstr, List.takeWhile_cons, h]

/-- `Strcmp` returns zero exactly for equal texts. -/
theorem Strcmp_eq_zero_iff (a b : List Char) : Strcmp a b = 0 ↔ cstr a = cstr b := by
  induction a generalizing b with
  | nil =>
    cases b with
    | nil => simp [Strcmp]
    | cons d ds =>
      rw [Strcmp, cstr_cons]
      by_cases hd : d = NUL
      · simp [hd, cstr, NUL]
      · have : d.toNat ≠ 0 := fun h => hd ((toNat_eq_zero_iff d).mp h)
        simp [hd, cstr]
        omega
  | cons c cs ih =>
    cases b with
    | nil =>
      rw [Strcmp, cstr_cons]
      by_cases hc : c = NUL
      · simp [hc, cstr, NUL]
      · have : c.toNat ≠ 0 := fun h => hc ((toNat_eq_zero_iff c).mp h)
        simp [hc, cstr]
        omega
    | cons d ds =>
      rw [Strcmp, cstr_cons, cstr_cons]
      by_cases hcd : c = d
      · subst hcd
        by_cases hc : c = NUL
        · simp [hc]
        · simp [hc, ih ds]
      · have hne : (c.toNat : Int) - (d.toNat : Int) ≠ 0 := by
          intro h
          exact hcd (toNat_injective (by omega))
        simp only [ne_eq, hcd, not_false_eq_true, if_true, hne, false_iff]
        by_cases hc : c = NUL
        · have hd : d ≠ NUL := fun h => hcd (hc.trans h.symm)
          simp [hc, hd]
        · by_cases hd : d = NUL
          · simp [hc, hd]
          · simp [hc, hd, hcd]

theorem cstr_of_not_mem (s : List Char) (h : NUL ∉ s) : cstr s = s := by
  induction s with
  | nil => rfl
  | cons c cs ih =>
    have hc : c ≠ NUL := fun hc => h (by simp [hc])
    rw [cstr_cons, if_neg hc, ih (fun hm => h (List.mem_cons_of_mem _ hm))]

theorem cstr_idem (s : List Char) : cstr (cstr s) = cstr s :=
  cstr_of_not_mem _ (NUL_not_mem_cstr s)

/-! ## Claims on reading and writing values -/

/-- C12, as stated, fails: for the value `"ff"` the first (`%X`) scan of `getHex` does not
leave 0 in `value`. -/
theorem C12_first_scan_of_ff_not_zero :
    (XmlBase.ctor.setValue "ff".toList).getHex_noRetry ≠ some 0 := by
  decide

/-- C12, amended: for the value `"ff"` the first (`%X`) scan of `getHex` already yields 255,
`%X` reading hexadecimal digits of either case; the retry with `%x` is taken only when the
first scan leaves 0 (a first result other than 0 is returned as it is), so it is not taken
here, and `getHex` returns 255. -/
theorem C12_ff_read_by_first_scan :
    Sscanf "ff".toList HexSpec.X 0 = 255 ∧
    (XmlBase.ctor.setValue "ff".toList).getHex_noRetry = some 255 ∧
    (XmlBase.ctor.setValue "ff".toList).getHex = some 255 ∧
    (∀ (x : XmlBase) (m : List Char), x.getValue_cstr = some m →
      Sscanf m HexSpec.X 0 ≠ 0 → x.getHex = some (Sscanf m HexSpec.X 0)) := by
  refine ⟨by decide, by decide, by decide, ?_⟩
  intro x m hx hne
  have hx2 : x.m_value = some m := hx
  simp only [XmlBase.getHex, hx2, Option.map_some', if_neg hne]

/-- Witness of the amended C12 at the value `"FF"`. -/
theorem C12_ff_read_by_first_scan_witness :
    (XmlBase.ctor.setValue "FF".toList).getHex = some (Sscanf "FF".toList HexSpec.X 0) :=
  C12_ff_read_by_first_scan.2.2.2 (XmlBase.ctor.setValue "FF".toList) "FF".toList rfl
    (by decide)

/-- C15: the retry in `getHex` never changes the outcome: on every object `getHex` returns
what its first scan alone leaves in `value`; `getHex` and `getHex` without the retry are the
same function. -/
theorem C15_getHex_retry_redundant :
    (∀ x : XmlBase, x.getHex = x.getHex_noRetry) ∧ XmlBase.getHex = XmlBase.getHex_noRetry := by
  have h : ∀ x : XmlBase, x.getHex = x.getHex_noRetry := by
    intro x
    cases hx : x.m_value with
    | none => simp [XmlBase.getHex, XmlBase.getHex_noRetry, hx]
    | some s =>
      rw [getHex_eq x s hx]
      simp only [XmlBase.getHex_noRetry, hx, Option.map_some', Sscanf]
      cases scanHex HexSpec.X s <;> rfl
  exact ⟨h, funext h⟩

/-- C16: `getValue<bool>` is true exactly when the value text is `"true"` or `"TRUE"`; every
other text, such as `"True"`, `"1"`, `"yes"`, `" true"` and `""`, reads as false; so
`setValue<bool>(b)` followed by `getValue<bool>()` returns `b`. -/
theorem C16_getValue_bool_exact (x : XmlBase) (s : List Char)
    (hx : x.getValue_cstr = some s) :
    (x.getValue_bool = some true ↔ cstr s = "true".toList ∨ cstr s = "TRUE".toList) ∧
    (x.getValue_bool = some false ↔ ¬ (cstr s = "true".toList ∨ cstr s = "TRUE".toList)) ∧
    (NUL ∉ s → (x.getValue_bool = some true ↔ s = "true".toList ∨ s = "TRUE".toList)) ∧
    (∀ t ∈ ["True", "1", "yes", " true", "", "true ", "tRUE"],
      (XmlBase.ctor.setValue t.toList).getValue_bool = some false) ∧
    (∀ (y : XmlBase) (b : Bool), (y.setValue_bool b).getValue_bool = some b) := by
  have hx2 : x.m_value = some s := hx
  have h1 : cstr "true".toList = "true".toList := by decide
  have h2 : cstr "TRUE".toList = "TRUE".toList := by decide
  have key : x.getValue_bool = some true ↔ cstr s = "true".toList ∨ cstr s = "TRUE".toList := by
    simp only [XmlBase.getValue_bool, hx2, Option.map_some', Option.some.injEq,
      Bool.or_eq_true, beq_iff_eq, Strcmp_eq_zero_iff, h1, h2]
  refine ⟨key, ?_, ?_, by decide, ?_⟩
  · rw [← key]
    simp only [XmlBase.getValue_bool, hx2, Option.map_some', Option.some.injEq]
    cases (Strcmp s "true".toList == 0 || Strcmp s "TRUE".toList == 0) <;> simp
  · intro hs
    rw [key, cstr_of_not_mem s hs]
  · intro y b
    cases b <;> rfl

/-- Witness of C16 at the value text `"TRUE"`. -/
theorem C16_getValue_bool_exact_witness :
    (XmlBase.ctor.setValue "TRUE".toList).getValue_bool = some true ∧
    ((XmlBase.ctor.setValue "TRUE".toList).getValue_bool = some true ↔
      cstr "TRUE".toList = "true".toList ∨ cstr "TRUE".toList = "TRUE".toList) :=
  ⟨by decide,
   (C16_getValue_bool_exact (XmlBase.ctor.setValue "TRUE".toList) "TRUE".toList rfl).1⟩

/-- Set-then-get with frame for an argument that the call can read: the text is stored, the
other field is untouched, and a second set replaces the first. -/
theorem set_then_get_readable (x : XmlBase) (s s1 : List Char) (hs : NUL ∉ s) :
    ((x.setValue s).getValue_cstr = some s ∧ (x.setValue s).getName = x.getName) ∧
    ((x.setValue_String s).getValue_cstr = some s ∧
      (x.setValue_String s).getName = x.getName) ∧
    ((x.setName s).getName = some s ∧ (x.setName s).getValue_cstr = x.getValue_cstr) ∧
    (((x.setValue s1).setValue s).getValue_cstr = some s ∧
      (x.setValue s1).setValue s = x.setValue s ∧
      ((x.setValue_String s1).setValue_String s).getValue_cstr = some s) ∧
    (((x.setName s1).setName s).getName = some s ∧
      (x.setName s1).setName s = x.setName s) ∧
    (∀ b : List Char, (x.setValue b).getValue_cstr = some (cstr b) ∧
      (x.setValue_String b).getValue_cstr = some (cstr b) ∧
      (x.setName b).getName = some (cstr b)) := by
  have hc := cstr_of_not_mem s hs
  refine ⟨⟨?_, rfl⟩, ⟨?_, rfl⟩, ⟨?_, rfl⟩, ⟨?_, ?_, ?_⟩, ⟨?_, ?_⟩, fun b => ⟨rfl, rfl, rfl⟩⟩ <;>
    simp [XmlBase.setValue, XmlBase.setValue_String, XmlBase.setName, XmlBase.getValue_cstr,
      XmlBase.getName, Strcpy, hc]

/-- C17: set-then-get with frame holds of the code for every argument but one that points
into the buffer the call releases.  For a text `s` outside the object, after `setValue(s)`,
with either overload, `getValue<const Char*>()` returns the text `s` and `getName()` is what
it was; after `setName(s)`, `getName()` returns `s` and the value is what it was; a second
set replaces the first; and the same holds for any pointer whose text the call can still
read, also into the other field's buffer or into a buffer the object does not own.  But
`setValue(getValue<const Char*>())` on an object that owns its value, and
`setName(getName())` on one that owns its name, have no defined result: `delete[]` runs
before `Strlen` and `Strcpy` read the argument. -/
theorem C17_set_then_get_unless_aliased (x : XmlBase) (p : CharPtr) (s s1 : List Char)
    (hs : NUL ∉ s) :
    ((XmlBase.ctor.setValue "a".toList).setValue_ptr (CharPtr.intoValue 0) = none ∧
      (XmlBase.ctor.setName "a".toList).setName_ptr (CharPtr.intoName 0) = none) ∧
    ((x.m_valueAllocated = true ∧ x.m_value ≠ none) →
      ∀ k : Nat, x.setValue_ptr (CharPtr.intoValue k) = none) ∧
    ((x.m_nameAllocated = true ∧ x.m_name ≠ none) →
      ∀ k : Nat, x.setName_ptr (CharPtr.intoName k) = none) ∧
    (∀ t : List Char,
      x.readArg false (x.m_valueAllocated && x.m_value.isSome) p = some t →
      ∃ y : XmlBase, x.setValue_ptr p = some y ∧ y.getValue_cstr = some (cstr t) ∧
        y.getName = x.getName) ∧
    (∀ t : List Char,
      x.readArg (x.m_nameAllocated && x.m_name.isSome) false p = some t →
      ∃ y : XmlBase, x.setName_ptr p = some y ∧ y.getName = some (cstr t) ∧
        y.getValue_cstr = x.getValue_cstr) ∧
    (∃ y : XmlBase, x.setValue_ptr (CharPtr.outside s) = some y ∧
      y.getValue_cstr = some s ∧ y.getName = x.getName) ∧
    ((x.setValue_String s).getValue_cstr = some s ∧
      (x.setValue_String s).getName = x.getName) ∧
    (∃ y : XmlBase, x.setName_ptr (CharPtr.outside s) = some y ∧
      y.getName = some s ∧ y.getValue_cstr = x.getValue_cstr) ∧
    ((x.setValue_ptr (CharPtr.outside s1)).bind
        (fun y => y.setValue_ptr (CharPtr.outside s)) = x.setValue_ptr (CharPtr.outside s) ∧
      (x.setName_ptr (CharPtr.outside s1)).bind
        (fun y => y.setName_ptr (CharPtr.outside s)) = x.setName_ptr (CharPtr.outside s)) := by
  obtain ⟨h1, h2, h3, h4, h5, -⟩ := set_then_get_readable x s s1 hs
  refine ⟨⟨by decide, by decide⟩, ?_, ?_, ?_, ?_, ⟨_, rfl, h1.1, h1.2⟩, h2,
    ⟨_, rfl, h3.1, h3.2⟩, ⟨?_, ?_⟩⟩
  · rintro ⟨ha, hv⟩ k
    cases hm : x.m_value with
    | none => exact absurd hm hv
    | some b => simp [XmlBase.setValue_ptr, XmlBase.readArg, ha, hm]
  · rintro ⟨ha, hv⟩ k
    cases hm : x.m_name with
    | none => exact absurd hm hv
    | some b => simp [XmlBase.setName_ptr, XmlBase.readArg, ha, hm]
  · intro t ht
    exact ⟨x.setValue t, by simp only [XmlBase.setValue_ptr, ht], rfl, rfl⟩
  · intro t ht
    exact ⟨x.setName t, by simp only [XmlBase.setName_ptr, ht], rfl, rfl⟩
  · rw [setValue_ptr_outside, Option.some_bind, setValue_ptr_outside, setValue_ptr_outside,
      h4.2.1]
  · rw [setName_ptr_outside, Option.some_bind, setName_ptr_outside, setName_ptr_outside, h5.2]

/-- Witness of C17 on an object named `"n"` whose value was set to `"a"`: setting the value
to the text at its name has a result, and the value is then `"n"`. -/
theorem C17_set_then_get_unless_aliased_witness :
    ∃ y : XmlBase,
      ((XmlBase.ctor.setName "n".toList).setValue "a".toList).setValue_ptr
        (CharPtr.intoName 0) = some y ∧
      y.getValue_cstr = some (cstr "n".toList) ∧
      y.getName = ((XmlBase.ctor.setName "n".toList).setValue "a".toList).getName :=
  (C17_set_then_get_unless_aliased ((XmlBase.ctor.setName "n".toList).setValue "a".toList)
    (CharPtr.intoName 0) "b".toList "c".toList (by decide)).2.2.2.1 "n".toList (by decide)

/-! ## Round trips through the number formats -/

theorem digitChar_decimal_facts (d : Nat) (hd : d < 10) :
    isdigit (digitChar d) = true ∧ (digitChar d).toNat - 48 = d ∧
    isspace (digitChar d) = false ∧ digitChar d ≠ '-' ∧ digitChar d ≠ '+' := by
  interval_cases d <;> decide

theorem scanDec_all (s : List Char) (hs : ∀ c ∈ s, ∃ d, d < 10 ∧ c = digitChar d)
    (acc : Nat) :
    scanDec acc s = acc * 10 ^ s.length + Nat.ofDigits 10 (s.reverse.map digitValue) := by
  induction s generalizing acc with
  | nil => simp [scanDec]
  | cons c cs ih =>
    obtain ⟨d, hd, rfl⟩ := hs (c) (List.mem_cons_self _ _)
    obtain ⟨h1, h2, -, -, -⟩ := digitChar_decimal_facts d hd
    rw [scanDec, if_pos h1, ih (fun e he => hs e (List.mem_cons_of_mem _ he)), h2]
    simp only [List.reverse_cons, List.map_append, List.map_cons, List.map_nil,
      Nat.ofDigits_append, List.length_map, List.length_reverse, List.length_cons,
      Nat.ofDigits_singleton, digitValue_digitChar d (by omega)]
    ring

/-- `atoi` reads back what `%d` writes. -/
theorem StrToI_fmt_d (n : Int) (hn : -2 ^ 31 ≤ n ∧ n < 2 ^ 31) : StrToI (fmt_d n) = n := by
  obtain ⟨h1, h2, -, h4, -⟩ := fmtUnsigned_spec 10 (by norm_num) (by norm_num) n.natAbs
  have hscan : scanDec 0 (fmtUnsigned 10 n.natAbs) = n.natAbs := by
    rw [scanDec_all _ h2, h4]
    simp
  obtain ⟨c, cs, hcs⟩ : ∃ c cs, fmtUnsigned 10 n.natAbs = c :: cs := by
    cases h : fmtUnsigned 10 n.natAbs with
    | nil => exact absurd h h1
    | cons c cs => exact ⟨c, cs, rfl⟩
  obtain ⟨d, hd, hc⟩ := h2 c (by rw [hcs]; exact List.mem_cons_self _ _)
  obtain ⟨-, -, f3, f4, f5⟩ := digitChar_decimal_facts d hd
  rw [← hc] at f3 f4 f5
  by_cases hneg : n < 0
  · have hskip : skipSpace (fmt_d n) = '-' :: fmtUnsigned 10 n.natAbs := by
      simp only [fmt_d, if_pos hneg, skipSpace]
      rfl
    have hsign : takeSign ('-' :: fmtUnsigned 10 n.natAbs) = (true, fmtUnsigned 10 n.natAbs) := by
      simp [takeSign]
    have hcl : clampLong (-(n.natAbs : Int)) = -(n.natAbs : Int) :=
      clampLong_of_mem _ (by omega)
    simp only [StrToI, hskip, hsign, hscan, if_true, hcl, toInt32]
    omega
  · have hskip : skipSpace (fmt_d n) = fmtUnsigned 10 n.natAbs := by
      simp only [fmt_d, if_neg hneg, hcs, skipSpace, f3]
      rfl
    have hsign : takeSign (fmtUnsigned 10 n.natAbs) = (false, fmtUnsigned 10 n.natAbs) := by
      rw [hcs]
      simp [takeSign, f4, f5]
    have hcl : clampLong (n.natAbs : Int) = (n.natAbs : Int) :=
      clampLong_of_mem _ (by omega)
    simp only [StrToI, hskip, hsign, hscan, Bool.false_eq_true, if_false, hcl, toInt32]
    omega

theorem isxdigit_of_mem_upperHex :
    ∀ c ∈ "0123456789ABCDEF".toList, isxdigit c = true := by
  decide

/-- The `%X` scan reads back what `%X` writes. -/
theorem scanHex_fmt_X (spec : HexSpec) (v : Nat) (hv : v < 2 ^ 32) :
    scanHex spec (fmt_X v) = some v := by
  obtain ⟨⟨h1, hup, -, hval⟩, -, -, -⟩ := fmt_X_facts v hv
  have hxd : ∀ c ∈ fmt_X v, isxdigit c = true :=
    fun c hc => isxdigit_of_mem_upperHex c (hup c hc)
  rw [scanHex_digits _ _ h1 hxd, hval, strtoulValue_of_lt _ (lt_trans hv (by norm_num)),
    Nat.mod_eq_of_lt hv]

/-- C13: the integer round trip does not hold of the code.  For every 32-bit `int` `n`,
`INT_MIN` and `INT_MAX` included, the text that `setValue<int>(n)` formats into `sz` is read
back as `n` by `getValue<int>` once it is the value of the object; but `setValue<int>(n)`
does not make it the value: its call `setValue(sz)` is bound to the primary template
`setValue<Char[128]>`, which has no definition, so there is no object to read `n` from. -/
theorem C13_int_round_trip_not_stored (x : XmlBase) (n : Int)
    (hn : -2 ^ 31 ≤ n ∧ n < 2 ^ 31) :
    x.setValue_int n = none ∧
    (x.setValue_int n).bind XmlBase.getValue_int = none ∧
    (x.setValue_int n).bind XmlBase.getValue_int ≠ some n ∧
    StrToI (Sprintf 128 (fmt_d n)) = n ∧
    (x.setValue (Sprintf 128 (fmt_d n))).getValue_int = some n ∧
    ((XmlBase.ctor.setValue (Sprintf 128 (fmt_d (-2147483648)))).getValue_int =
        some (-2147483648) ∧
      (XmlBase.ctor.setValue (Sprintf 128 (fmt_d 2147483647))).getValue_int =
        some 2147483647) := by
  obtain ⟨-, h2, -, h4⟩ := fmt_d_facts n hn
  refine ⟨rfl, rfl, by simp [XmlBase.setValue_int, XmlBase.setValue_primary], ?_, ?_,
    by decide, by decide⟩
  · rw [h2, StrToI_fmt_d n hn]
  · simp only [XmlBase.getValue_int, XmlBase.setValue, Strcpy, Option.map_some', h2,
      cstr_of_not_mem _ h4, StrToI_fmt_d n hn]

/-- Witness of C13 at `-1`: the text in `sz` reads back as `-1`, and nothing is stored. -/
theorem C13_int_round_trip_not_stored_witness :
    StrToI (Sprintf 128 (fmt_d (-1))) = -1 ∧
    (XmlBase.ctor.setValue_int (-1)).bind XmlBase.getValue_int = none :=
  ⟨(C13_int_round_trip_not_stored XmlBase.ctor (-1) (by decide)).2.2.2.1,
   (C13_int_round_trip_not_stored XmlBase.ctor (-1) (by decide)).2.1⟩

/-- C14: the hex round trip does not hold of the code.  For every unsigned value `v` below
`2 ^ 32`, the text that `setHex(v)` formats into `sz` is the upper-case base-16 text of `v`,
without prefix or leading zeros (`"0"` for 0), and `getHex` reads it back as `v` once it is
the value of the object; but `setHex(v)` does not make it the value: its call `setValue(sz)`
is bound to the primary template `setValue<Char[128]>`, which has no definition. -/
theorem C14_hex_round_trip_not_stored (x : XmlBase) (v : Nat) (hv : v < 2 ^ 32) :
    x.setHex v = none ∧
    (x.setHex v).bind XmlBase.getHex = none ∧
    (x.setHex v).bind XmlBase.getHex ≠ some v ∧
    IsUpperHexOf (Sprintf 128 (fmt_X v)) v ∧
    (x.setValue (Sprintf 128 (fmt_X v))).getHex = some v ∧
    (Sprintf 128 (fmt_X 0) = "0".toList ∧
      Sprintf 128 (fmt_X 3735928559) = "DEADBEEF".toList) := by
  obtain ⟨h1, h2, -, h4⟩ := fmt_X_facts v hv
  refine ⟨rfl, rfl, by simp [XmlBase.setHex, XmlBase.setValue_primary], by rw [h2]; exact h1,
    ?_, by decide, by decide⟩
  have hm : (x.setValue (Sprintf 128 (fmt_X v))).m_value = some (fmt_X v) := by
    simp only [XmlBase.setValue, Strcpy, h2, cstr_of_not_mem _ h4]
  rw [getHex_eq _ _ hm, scanHex_fmt_X _ v hv]
  rfl

/-- Witness of C14 at the largest 32-bit value: the text in `sz` is `FFFFFFFF`, and nothing
is stored. -/
theorem C14_hex_round_trip_not_stored_witness :
    Sprintf 128 (fmt_X 4294967295) = "FFFFFFFF".toList ∧
    XmlBase.ctor.setHex 4294967295 = none :=
  ⟨by decide, (C14_hex_round_trip_not_stored XmlBase.ctor 4294967295 (by decide)).1⟩

/-! ## Enumerations -/

/-- C11: `readAttributeAsEnum` returns the default when the attribute is missing; for a
present attribute it returns the index of a candidate among `enumNames[0 .. enumCount)` whose
text equals the value text when there is one (the first such index), and the default when no
candidate equals it; with `mode="Slow"` and the candidates `Fast`, `Slow` it returns 1. -/
theorem C11_readAttributeAsEnum_lookup (node : XmlNode) (name : List Char)
    (enumNames : List (List Char)) (enumCount d : Nat) :
    (node.findAttribute name = none →
      node.readAttributeAsEnum name enumNames enumCount d = some d) ∧
    (∀ (a : XmlAttribute) (v : List Char), node.findAttribute name = some a →
      a.getValue_cstr = some v →
      ((∃ i, i < enumCount ∧ ∃ e, enumNames[i]? = some e ∧ cstr e = cstr v) →
        ∃ j, node.readAttributeAsEnum name enumNames enumCount d = some j ∧ j < enumCount ∧
          (∃ e, enumNames[j]? = some e ∧ cstr e = cstr v) ∧
          ∀ i, i < j → ∀ e, enumNames[i]? = some e → cstr e ≠ cstr v) ∧
      ((∀ i, i < enumCount → ∀ e, enumNames[i]? = some e → cstr e ≠ cstr v) →
        node.readAttributeAsEnum name enumNames enumCount d = some d)) ∧
    ((XmlNode.ctor NodeType.ELEMENT).addAttribute (some "mode".toList)
        (some "Slow".toList)).1.readAttributeAsEnum "mode".toList
      ["Fast".toList, "Slow".toList] 2 0 = some 1 ∧
    (XmlNode.ctor NodeType.ELEMENT).readAttributeAsEnum "mode".toList
      ["Fast".toList, "Slow".toList] 2 7 = some 7 := by
  refine ⟨?_, ?_, by decide, by decide⟩
  · intro h
    simp [XmlNode.readAttributeAsEnum, h]
  · intro a v ha hv
    have hv2 : a.toXmlBase.getValue_cstr = some v := hv
    constructor
    · rintro ⟨i, hi, e, hie, hev⟩
      have hex : ∃ y, y ∈ enumNames.take enumCount ∧ (Strcmp y v == 0) = true := by
        refine ⟨e, ?_, by simpa [Strcmp_eq_zero_iff] using hev⟩
        rw [List.mem_iff_getElem?]
        exact ⟨i, by rw [List.getElem?_take, if_pos hi, hie]⟩
      obtain ⟨j, hj⟩ : ∃ j, (enumNames.take enumCount).findIdx?
          (fun e => Strcmp e v == 0) = some j :=
        ⟨_, List.findIdx?_eq_some_of_exists hex⟩
      obtain ⟨hjlt, hpj, hmin⟩ := List.findIdx?_eq_some_iff_getElem.mp hj
      have hjc : j < enumCount := by
        simp only [List.length_take] at hjlt
        omega
      have hjl : j < enumNames.length := by
        simp only [List.length_take] at hjlt
        omega
      refine ⟨j, by simp only [XmlNode.readAttributeAsEnum, ha, hv2, Option.map_some', hj],
        hjc, ?_, ?_⟩
      · refine ⟨enumNames[j], List.getElem?_eq_getElem hjl, ?_⟩
        have := hpj
        simp only [List.getElem_take, beq_iff_eq, Strcmp_eq_zero_iff] at this
        exact this
      · intro i' hi' e' he' heq
        have hlt' : i' < (enumNames.take enumCount).length := by omega
        have := hmin i' hi'
        apply this
        have hget : (enumNames.take enumCount)[i'] = e' := by
          have h1 : (enumNames.take enumCount)[i']? = some e' := by
            rw [List.getElem?_take, if_pos (by omega), he']
          rw [List.getElem?_eq_getElem hlt'] at h1
          exact Option.some.inj h1
        rw [hget]
        simpa [Strcmp_eq_zero_iff] using heq
    · intro hnone
      have hf : (enumNames.take enumCount).findIdx? (fun e => Strcmp e v == 0) = none := by
        rw [List.findIdx?_eq_none_iff]
        intro e he
        obtain ⟨i, hi⟩ := List.mem_iff_getElem?.mp he
        rw [List.getElem?_take] at hi
        split at hi
        · rename_i hlt
          have := hnone i hlt e hi
          simpa [Strcmp_eq_zero_iff] using this
        · exact absurd hi (by simp)
      simp only [XmlNode.readAttributeAsEnum, ha, hv2, Option.map_some', hf]

/-- Witness of C11: no attribute `mode` on a fresh element, so the default 7 comes back. -/
theorem C11_readAttributeAsEnum_lookup_witness :
    (XmlNode.ctor NodeType.ELEMENT).findAttribute "mode".toList = none ∧
    (XmlNode.ctor NodeType.ELEMENT).readAttributeAsEnum "mode".toList
      ["Fast".toList, "Slow".toList] 2 7 = some 7 :=
  ⟨by decide, (C11_readAttributeAsEnum_lookup (XmlNode.ctor NodeType.ELEMENT) "mode".toList
    ["Fast".toList, "Slow".toList] 2 7).1 (by decide)⟩

end slim
